import Mathlib

/-!
# NFL pick-em: pick / result / score model of `script.js`

A shallow embedding of the browser script.  JavaScript values that the script
stores or reads (the results of `JSON.parse`, plus the values the script itself
assigns) are embedded as `JVal`; the process-wide variables `schedule`, `picks`,
`results`, `tiebreakers`, `importedPicks`, `userName`, the parts of the DOM the
script writes, and `localStorage` form `AppState`.  A JavaScript exception is an
`Except.error`; a handler with a `try`/`catch` returns the state reached when
the exception was raised.

Scope of the embedding:
* JSON numbers are integers (`Int`); fractional literals are not represented.
* Members inherited from the built-in prototypes are not represented: property
  reads see own members only, so for a week identifier that names an inherited
  member (such as `constructor`) the reads `picks[week]`, `tiebreakers[week]`
  and `results[week]` of `renderWeek` differ from the host.
* `parseInt` is exact (the host rounds to a double) and a comparator yielding
  NaN is sorted by insertion sort, so the order of the week tabs, and with it
  the week rendered first, can differ from the host for such week identifiers.
* String length and indexing count characters, not UTF-16 code units.
* `JSON.parse` belongs to the host: each handler receives its outcome
  (`Except.error msg` when it throws, `Except.ok v` otherwise).
* Label texts and styling of the rendered rows are not represented; the
  property reads they perform (which may throw) are.
-/

namespace PickEm

/-! ## JavaScript values -/

/-- A JavaScript value as produced by `JSON.parse` or assigned by the script.
An object is its list of own members in insertion order (the first binding of a
key is the live one). -/
inductive JVal where
  | undefined
  | null
  | bool (b : Bool)
  | num (n : Int)
  | str (s : String)
  | arr (xs : List JVal)
  | obj (kvs : List (String × JVal))

instance : Inhabited JVal := ⟨JVal.undefined⟩

/-- Own members of a plain object. -/
abbrev JObj := List (String × JVal)

/-- ToBoolean. -/
def truthy : JVal → Bool
  | .undefined => false
  | .null => false
  | .bool b => b
  | .num n => n != 0
  | .str s => s != ""
  | .arr _ => true
  | .obj _ => true

/-- The test `v === undefined`. -/
def isUndefined : JVal → Bool
  | .undefined => true
  | _ => false

/-- The test `v === s` for a string literal `s`. -/
def strictEqStr : JVal → String → Bool
  | .str t, s => t == s
  | _, _ => false

/-- The test `n === v` for a number `n`. -/
def strictEqNum : JVal → Int → Bool
  | .num m, n => m == n
  | _, _ => false

/-- Own-member lookup `o[k]` on a plain object: `undefined` when absent. -/
def objGet : JObj → String → JVal
  | [], _ => .undefined
  | (k', v) :: rest, k => if k' = k then v else objGet rest k

/-- The assignment `o[k] = v` on a plain object: overwrite the live binding, or
add the member at the end. -/
def objSet : JObj → String → JVal → JObj
  | [], k, v => [(k, v)]
  | (k', v') :: rest, k, v => if k' = k then (k, v) :: rest else (k', v') :: objSet rest k v

/-- The array index named by property key `k`, if it is below `n`. -/
def indexOfKey (n : Nat) (k : String) : Option Nat :=
  (List.range n).find? (fun i => toString i = k)

/-- Property read `xs[k]` on an array. -/
def arrGet (xs : List JVal) (k : String) : JVal :=
  if k = "length" then .num xs.length
  else match indexOfKey xs.length k with
    | some i => xs.getD i .undefined
    | none => .undefined

/-- Property read `s[k]` on a string. -/
def strGet (s : String) (k : String) : JVal :=
  if k = "length" then .num s.data.length
  else match indexOfKey s.data.length k with
    | some i => match s.data.get? i with
      | some c => .str (String.mk [c])
      | none => .undefined
    | none => .undefined

/-- Property read `v[k]`.  Reading a property of `undefined` or `null` throws a
TypeError; numbers and booleans have no own members. -/
def getProp (v : JVal) (k : String) : Except String JVal :=
  match v with
  | .undefined => .error "TypeError: cannot read properties of undefined"
  | .null => .error "TypeError: cannot read properties of null"
  | .obj kvs => .ok (objGet kvs k)
  | .arr xs => .ok (arrGet xs k)
  | .str s => .ok (strGet s k)
  | .bool _ => .ok .undefined
  | .num _ => .ok .undefined

/-- Property read `v[i]` with a numeric index: the key is the decimal text of `i`. -/
def getIdx (v : JVal) (i : Nat) : Except String JVal :=
  getProp v (toString i)

/-- Keys without repetition, each at its first position. -/
def dedupKeys : List String → List String
  | [] => []
  | k :: ks => k :: (dedupKeys ks).filter (fun k' => k' ≠ k)

/-- Value of a run of decimal digits. -/
def decimalValue (cs : List Char) : Nat :=
  cs.foldl (fun acc c => 10 * acc + (c.toNat - 48)) 0

/-- Whether a property key is a canonical array index (decimal text of a number
below `2^32 - 1`, no leading zero). -/
def isIndexKey (k : String) : Bool :=
  let cs := k.data
  !cs.isEmpty && cs.all Char.isDigit && (cs.head? != some '0' || cs.length == 1)
    && decide (decimalValue cs < 4294967295)

/-- Own keys of a plain object in the order `Object.keys` reports them: array
index keys ascending, then the other keys in insertion order. -/
def ownKeys (kvs : JObj) : List String :=
  let ks := dedupKeys (kvs.map Prod.fst)
  (ks.filter isIndexKey).insertionSort (fun a b => decimalValue a.data ≤ decimalValue b.data)
    ++ ks.filter (fun k => !isIndexKey k)

/-- The call `Object.keys(v)`: throws on `undefined` and `null`. -/
def objectKeys : JVal → Except String (List String)
  | .undefined => .error "TypeError: cannot convert undefined to object"
  | .null => .error "TypeError: cannot convert null to object"
  | .obj kvs => .ok (ownKeys kvs)
  | .arr xs => .ok ((List.range xs.length).map toString)
  | .str s => .ok ((List.range s.data.length).map toString)
  | .bool _ => .ok []
  | .num _ => .ok []

/-- The comparison `x > 0` on the value of a `length` property.  Number,
boolean, `null` and `undefined` operands follow ToNumber; a string, array or
object operand (possible only as an own member named `length`) is outside the
embedding and compares false. -/
def gtZero : JVal → Bool
  | .num n => decide (0 < n)
  | .bool b => b
  | _ => false

mutual
/-- What `JSON.parse(JSON.stringify(v))` yields: members holding `undefined` are
dropped, `undefined` array elements become `null`. -/
def jsonClone : JVal → JVal
  | .arr xs => .arr (cloneElems xs)
  | .obj kvs => .obj (cloneMembers kvs)
  | v => v
/-- Element-wise part of `jsonClone` for arrays. -/
def cloneElems : List JVal → List JVal
  | [] => []
  | .undefined :: xs => .null :: cloneElems xs
  | x :: xs => jsonClone x :: cloneElems xs
/-- Member-wise part of `jsonClone` for objects. -/
def cloneMembers : List (String × JVal) → List (String × JVal)
  | [] => []
  | (_, .undefined) :: kvs => cloneMembers kvs
  | (k, v) :: kvs => (k, jsonClone v) :: cloneMembers kvs
end

/-! ## Host library pieces -/

/-- The method `Array.prototype.sort(cmp)`: a stable sort (ECMAScript 2019), here
insertion sort; `a` stays before `b` unless `cmp a b > 0`.  For a comparator
that is a consistent ordering every stable sort returns this list. -/
def jsSort {α : Type} (cmp : α → α → Int) (l : List α) : List α :=
  l.insertionSort (fun a b => cmp a b ≤ 0)

/-- A callback run by `forEach` over the elements with their indices, threading
the variables it updates; stops at the first exception. -/
def forEachIdx {σ α : Type} (f : σ → α → Nat → Except String σ) :
    List α → Nat → σ → Except String σ
  | [], _, s => .ok s
  | x :: xs, i, s =>
    match f s x i with
    | .ok s' => forEachIdx f xs (i + 1) s'
    | .error e => .error e

/-- The call `v.forEach(callback)`: only arrays have the method. -/
def arrayForEach {σ : Type} (v : JVal) (f : σ → JVal → Nat → Except String σ) (init : σ) :
    Except String σ :=
  match v with
  | .arr xs => forEachIdx f xs 0 init
  | _ => .error "TypeError: forEach is not a function"

/-- The call `keys.forEach(callback)` over a list of keys, threading the
variables the callback updates. -/
def forEachKey {σ : Type} (f : σ → String → Except String σ) : List String → σ → Except String σ
  | [], s => .ok s
  | k :: ks, s =>
    match f s k with
    | .ok s' => forEachKey f ks s'
    | .error e => .error e

/-- The call `keys.some(pred)`: stops at the first key the predicate accepts. -/
def someKey (pred : String → Except String Bool) : List String → Except String Bool
  | [] => .ok false
  | k :: ks =>
    match pred k with
    | .ok true => .ok true
    | .ok false => someKey pred ks
    | .error e => .error e

/-- WhiteSpace and LineTerminator code points, as skipped by `parseInt` and
`trim` and matched by the regular expression class for white space. -/
def isJsSpace (c : Char) : Bool :=
  let n := c.toNat
  n == 9 || n == 10 || n == 11 || n == 12 || n == 13 || n == 32 || n == 160 || n == 5760
    || (8192 ≤ n && n ≤ 8202) || n == 8232 || n == 8233 || n == 8239 || n == 8287
    || n == 12288 || n == 65279

/-- Value of a character as a digit, letters counting from ten. -/
def digitValue (c : Char) : Option Nat :=
  let n := c.toNat
  if 48 ≤ n ∧ n ≤ 57 then some (n - 48)
  else if 97 ≤ n ∧ n ≤ 122 then some (n - 87)
  else if 65 ≤ n ∧ n ≤ 90 then some (n - 55)
  else none

/-- The longest leading run of digits of the radix. -/
def takeDigits (radix : Nat) : List Char → List Nat
  | [] => []
  | c :: cs =>
    match digitValue c with
    | some d => if d < radix then d :: takeDigits radix cs else []
    | none => []

/-- The call `parseInt(s)` with no radix argument; `none` is NaN.  The value is
the exact integer. -/
def parseInt (s : String) : Option Int :=
  let cs := s.data.dropWhile isJsSpace
  let signed : Bool × List Char :=
    match cs with
    | '-' :: r => (true, r)
    | '+' :: r => (false, r)
    | r => (false, r)
  let based : Nat × List Char :=
    match signed.2 with
    | '0' :: 'x' :: r => (16, r)
    | '0' :: 'X' :: r => (16, r)
    | r => (10, r)
  match takeDigits based.1 based.2 with
  | [] => none
  | ds =>
    let n : Int := (ds.foldl (fun a d => a * based.1 + d) 0 : Nat)
    some (if signed.1 then -n else n)

/-- Line 120: the comparator `(a, b) => parseInt(a) - parseInt(b)`; a NaN
difference is read by `sort` as 0. -/
def weekCmp (a b : String) : Int :=
  match parseInt a, parseInt b with
  | some x, some y => x - y
  | _, _ => 0

/-- The call `s.trim()`. -/
def jsTrim (cs : List Char) : List Char :=
  ((cs.dropWhile isJsSpace).reverse.dropWhile isJsSpace).reverse

/-- The call `s.split(" ")`. -/
def splitOnSpace : List Char → List (List Char)
  | [] => [[]]
  | c :: cs =>
    match splitOnSpace cs with
    | [] => if c = ' ' then [[], []] else [[c]]
    | w :: ws => if c = ' ' then [] :: w :: ws else (c :: w) :: ws

/-- The call `s.replace(/\s+/g, "_")`; the flag tells whether the previous
character was white space. -/
def replaceSpaceRuns : Bool → List Char → List Char
  | _, [] => []
  | inRun, c :: cs =>
    if isJsSpace c then
      if inRun then replaceSpaceRuns true cs else '_' :: replaceSpaceRuns true cs
    else c :: replaceSpaceRuns false cs

/-- The assignment `xs[i] = v` on an array; a hole left by extending the array
is represented by `undefined`, which index reads and `JSON.stringify` treat
alike. -/
def arrSet : List JVal → Nat → JVal → List JVal
  | [], 0, v => [v]
  | [], n + 1, v => .undefined :: arrSet [] n v
  | _ :: xs, 0, v => v :: xs
  | x :: xs, n + 1, v => x :: arrSet xs n v

/-- The assignment `target[i] = v` with a numeric index, returning the updated
target.  Throws on `undefined` and `null`; on a string, number or boolean the
assignment is ignored (the script is not in strict mode). -/
def setIdx (target : JVal) (i : Nat) (v : JVal) : Except String JVal :=
  match target with
  | .undefined => .error "TypeError: cannot set properties of undefined"
  | .null => .error "TypeError: cannot set properties of null"
  | .obj kvs => .ok (.obj (objSet kvs (toString i) v))
  | .arr xs => .ok (.arr (arrSet xs i v))
  | t => .ok t

/-! ## Application state -/

/-- One entry of the `scores` array of `updateLeaderboard`, later one table row. -/
structure ScoreRow where
  name : JVal
  correct : Nat

/-- One radio input of a game row. -/
structure RadioInput where
  value : String
  checked : Bool
  disabled : Bool
  label : JVal

/-- One `game-row` element appended to the content area. -/
structure GameRow where
  away : JVal
  home : JVal
  inputs : List RadioInput
  resolved : Bool
  winnerSide : Option String

/-- The tiebreaker number input. -/
structure TiebreakerInput where
  value : JVal
  disabled : Bool

/-- The content area: a text, or the game rows appended so far followed by the
tiebreaker input once it is appended. -/
inductive Content where
  | text (s : String)
  | week (rows : List GameRow) (tiebreaker : Option TiebreakerInput)

/-- One week tab button: its text and whether it carries the class `active`. -/
structure TabButton where
  text : String
  active : Bool

/-- The variables of the script (lines 44-49), `localStorage`, and the DOM
elements it writes.  `picks` and `tiebreakers` are plain objects: they are only
ever the object parsed from the stored text or a fresh empty object. -/
structure AppState where
  schedule : JVal
  picks : JObj
  results : JVal
  tiebreakers : JObj
  importedPicks : List JVal
  userName : String
  storage : JObj
  weekTabs : List TabButton
  content : Content
  leaderboardHidden : Bool
  leaderboardTable : List ScoreRow

/-- The call `localStorage.setItem(key, JSON.stringify(v))`; the stored text is
represented by the value it parses back to. -/
def setItem (st : AppState) (key : String) (v : JVal) : AppState :=
  { st with storage := objSet st.storage key (jsonClone v) }

/-- Lines 105-107. -/
def saveSchedule (st : AppState) : AppState :=
  setItem st "nflpickem_schedule" st.schedule

/-- Lines 108-111. -/
def savePicks (st : AppState) : AppState :=
  setItem (setItem st "nflpickem_picks" (.obj st.picks)) "nflpickem_tiebreakers"
    (.obj st.tiebreakers)

/-- Lines 112-114. -/
def saveResults (st : AppState) : AppState :=
  setItem st "nflpickem_results" st.results

/-! ## Scoring (`updateLeaderboard`, lines 226-283) -/

/-- Line 229: `Object.keys(results).some(wk => results[wk] && results[wk].length > 0)`. -/
def hasResults (results : JVal) : Except String Bool := do
  let keys ← objectKeys results
  someKey (fun wk => do
    let rw ← getProp results wk
    if truthy rw then
      let len ← getProp rw "length"
      pure (gtZero len)
    else pure false) keys

/-- Lines 240-241: `chosen = side === "home" ? 0 : 1` and the test `chosen === res`. -/
def chosenMatches (side res : JVal) : Bool :=
  let chosen : Int := if strictEqStr side "home" then 0 else 1
  strictEqNum res chosen

/-- Lines 239-242, the body of the inner callback of the local loop. -/
def localStep (picks : JVal) (week : String) (localScore : Nat) (res : JVal) (idx : Nat) :
    Except String Nat := do
  let pw ← getProp picks week
  if truthy pw then
    let side ← getIdx pw idx
    if !isUndefined side then
      if chosenMatches side res then pure (localScore + 1) else pure localScore
    else pure localScore
  else pure localScore

/-- Lines 236-244: the score of the local user. -/
def localScore (picks results : JVal) : Except String Nat := do
  let keys ← objectKeys results
  forEachKey (fun score week => do
    let rw ← getProp results week
    arrayForEach (if truthy rw then rw else .arr []) (localStep picks week) score) keys 0

/-- Lines 252-256, the body of the inner callback of the imported loop. -/
def importedStep (player : JVal) (week : String) (score : Nat) (res : JVal) (idx : Nat) :
    Except String Nat := do
  let ppicks ← getProp player "picks"
  let pw ← getProp ppicks week
  let pickSide ← if truthy pw then getIdx pw idx else pure .undefined
  if !isUndefined pickSide then
    if chosenMatches pickSide res then pure (score + 1) else pure score
  else pure score

/-- Lines 248-258: the score of one imported player. -/
def importedScore (player results : JVal) : Except String Nat := do
  let keys ← objectKeys results
  forEachKey (fun score week => do
    let rw ← getProp results week
    arrayForEach (if truthy rw then rw else .arr []) (importedStep player week) score) keys 0

/-- Lines 247-260: the entries pushed for the imported players, in order. -/
def importedRows (results : JVal) : List JVal → Except String (List ScoreRow)
  | [] => .ok []
  | player :: rest => do
    let score ← importedScore player results
    let name ← getProp player "name"
    let rows ← importedRows results rest
    pure (⟨name, score⟩ :: rows)

/-- Lines 236-260: the `scores` array before it is sorted. -/
def computeScores (st : AppState) : Except String (List ScoreRow) := do
  let score ← localScore (.obj st.picks) st.results
  let rows ← importedRows st.results st.importedPicks
  pure (⟨.str st.userName, score⟩ :: rows)

/-- Line 262: the comparator `(a, b) => b.correct - a.correct`. -/
def byCorrectDesc (a b : ScoreRow) : Int :=
  (b.correct : Int) - (a.correct : Int)

/-- The function `updateLeaderboard`.  An exception can only be raised before
the first DOM write, so the state is then the one it was called in. -/
def updateLeaderboard (st : AppState) : AppState × Option String :=
  match hasResults st.results with
  | .error e => (st, some e)
  | .ok false => ({ st with leaderboardHidden := true, leaderboardTable := [] }, none)
  | .ok true =>
    match computeScores st with
    | .error e => (st, some e)
    | .ok scores =>
      ({ st with leaderboardHidden := false, leaderboardTable := jsSort byCorrectDesc scores },
        none)


/-! ## Rendering (`renderWeek`, `buildWeekTabs`) -/

/-- Lines 175 and 188: `results[week] && results[week][index] !== undefined`,
read as a boolean. -/
def hasEntry (results : JVal) (week : String) (index : Nat) : Except String Bool := do
  let rw ← getProp results week
  if truthy rw then
    let entry ← getIdx rw index
    pure (!isUndefined entry)
  else pure false

/-- Lines 168-184: one radio input of game `index` for `side`. -/
def renderInput (st : AppState) (week : String) (index : Nat) (game : JVal) (side : String) :
    Except String RadioInput := do
  let picked ← getIdx (objGet st.picks week) index
  let disabled ← hasEntry st.results week index
  let label ← getProp game side
  pure ⟨side, strictEqStr picked side, disabled, label⟩

/-- Lines 159-197: the row of game `index`. -/
def renderRow (st : AppState) (week : String) (game : JVal) (index : Nat) :
    Except String GameRow := do
  let away ← getProp game "away"
  let home ← getProp game "home"
  let awayInput ← renderInput st week index game "away"
  let homeInput ← renderInput st week index game "home"
  let resolved ← hasEntry st.results week index
  if resolved then
    let rw ← getProp st.results week
    let entry ← getIdx rw index
    pure ⟨away, home, [awayInput, homeInput], true,
      some (if strictEqNum entry 0 then "home" else "away")⟩
  else pure ⟨away, home, [awayInput, homeInput], false, none⟩

/-- Lines 158-199: `games.forEach`, appending each finished row to the content
area; returns the rows appended and the exception that stopped the loop, if any. -/
def renderRows (st : AppState) (week : String) :
    List JVal → Nat → List GameRow → List GameRow × Option String
  | [], _, acc => (acc, none)
  | game :: rest, index, acc =>
    match renderRow st week game index with
    | .ok row => renderRows st week rest (index + 1) (acc ++ [row])
    | .error e => (acc, some e)

/-- Lines 155-156: make sure `picks[week]` and `tiebreakers[week]` exist.  Both
tests read own members only. -/
def ensureWeekEntries (week : String) (st : AppState) : AppState :=
  let st := if !truthy (objGet st.picks week)
    then { st with picks := objSet st.picks week (.obj []) } else st
  if isUndefined (objGet st.tiebreakers week)
    then { st with tiebreakers := objSet st.tiebreakers week (.str "") } else st

/-- Lines 205-209: the tiebreaker input, its value `tiebreakers[week] || ""` and
its flag `results[week] !== undefined`, both read from own members only (the
host also sees inherited members, for which the flag is set). -/
def renderTiebreaker (st : AppState) (week : String) : Except String TiebreakerInput := do
  let stored := objGet st.tiebreakers week
  let rw ← getProp st.results week
  pure ⟨if truthy stored then stored else .str "", !isUndefined rw⟩

/-- The function `renderWeek` (lines 146-219). -/
def renderWeek (week : String) (st : AppState) : AppState × Option String :=
  match getProp st.schedule week with
  | .error e => ({ st with content := .week [] none }, some e)
  | .ok g =>
    match (if truthy g then g else .arr []) with
    | .arr (game :: rest) =>
      let st1 := ensureWeekEntries week st
      match renderRows st1 week (game :: rest) 0 [] with
      | (rows, some e) => ({ st1 with content := .week rows none }, some e)
      | (rows, none) =>
        match renderTiebreaker st1 week with
        | .error e => ({ st1 with content := .week rows none }, some e)
        | .ok tb => updateLeaderboard { st1 with content := .week rows (some tb) }
    | _ => ({ st with content := .text "No games scheduled for this week." }, none)

/-- Lines 176-179: the `change` listener of the radio input of game `index` for
`side` (the browser fires it only on an enabled input). -/
def onPickChange (week : String) (index : Nat) (side : String) (st : AppState) :
    AppState × Option String :=
  match setIdx (objGet st.picks week) index (.str side) with
  | .error e => (st, some e)
  | .ok weekPicks => (savePicks { st with picks := objSet st.picks week weekPicks }, none)

/-- Lines 210-213: the `change` listener of the tiebreaker input. -/
def onTiebreakerChange (week : String) (value : String) (st : AppState) : AppState :=
  savePicks { st with tiebreakers := objSet st.tiebreakers week (.str value) }

/-- Lines 121-134: one button per week, the first one active. -/
def makeTabs : List String → Nat → List TabButton
  | [], _ => []
  | w :: ws, index => ⟨"Week " ++ w, index == 0⟩ :: makeTabs ws (index + 1)

/-- The function `buildWeekTabs` (lines 118-141). -/
def buildWeekTabs (st : AppState) : AppState × Option String :=
  let st := { st with weekTabs := [] }
  match objectKeys st.schedule with
  | .error e => (st, some e)
  | .ok keys =>
    let weeks := jsSort weekCmp keys
    let st := { st with weekTabs := makeTabs weeks 0 }
    match weeks with
    | w :: _ => renderWeek w st
    | [] => ({ st with content := .text "No schedule defined." }, none)

/-! ## Handlers -/

/-- What a handler tells the user through `alert`. -/
inductive Alert where
  | scheduleSaved
  | scheduleFailed (msg : String)
  | resultsSaved
  | resultsFailed (msg : String)
  | imported (name : JVal)
  | importFailed (msg : String)

/-- The function `handleSaveSchedule` (lines 316-331); `parsed` is the outcome of
`JSON.parse(scheduleEditor.value)`. -/
def handleSaveSchedule (parsed : Except String JVal) (st : AppState) : AppState × Alert :=
  match parsed with
  | .error msg => (st, .scheduleFailed msg)
  | .ok newSchedule =>
    let st := saveSchedule { st with schedule := newSchedule }
    let st := savePicks { st with picks := [], tiebreakers := [] }
    match buildWeekTabs st with
    | (st, none) => (st, .scheduleSaved)
    | (st, some msg) => (st, .scheduleFailed msg)

/-- Lines 342-346: the week named by the text of the first active tab,
`text.trim().split(" ")[1]`; a missing second word reads as `undefined`, whose
property key is the text "undefined". -/
def activeWeek (tabs : List TabButton) : Option String :=
  match tabs.find? (fun b => b.active) with
  | none => none
  | some btn =>
    match (splitOnSpace (jsTrim btn.text.data)).get? 1 with
    | some w => some (String.mk w)
    | none => some "undefined"

/-- The function `handleSaveResults` (lines 336-352); `parsed` is the outcome of
`JSON.parse(resultsEditor.value)`. -/
def handleSaveResults (parsed : Except String JVal) (st : AppState) : AppState × Alert :=
  match parsed with
  | .error msg => (st, .resultsFailed msg)
  | .ok newResults =>
    let st := saveResults { st with results := newResults }
    match activeWeek st.weekTabs with
    | none => (st, .resultsSaved)
    | some week =>
      match renderWeek week st with
      | (st, none) => (st, .resultsSaved)
      | (st, some msg) => (st, .resultsFailed msg)

/-- Lines 358-363 of `handleExport`: the document the downloaded file parses to,
`JSON.stringify` of the object with `name`, `picks` and `tiebreakers`. -/
def handleExport (st : AppState) : JVal :=
  jsonClone (.obj [("name", .str st.userName), ("picks", .obj st.picks),
    ("tiebreakers", .obj st.tiebreakers)])

/-- Line 367 of `handleExport`: the name of the downloaded file. -/
def exportFileName (st : AppState) : String :=
  String.mk (replaceSpaceRuns false st.userName.data) ++ "_picks.json"

/-- The `reader.onload` callback of `handleImportFile` (lines 381-391); `parsed`
is the outcome of `JSON.parse` on the text of the file. -/
def handleImportFile (parsed : Except String JVal) (st : AppState) : AppState × Alert :=
  match parsed with
  | .error msg => (st, .importFailed msg)
  | .ok doc =>
    match getProp doc "name" with
    | .error e => (st, .importFailed e)
    | .ok name =>
      if !truthy name then (st, .importFailed "Missing name or picks")
      else
        match getProp doc "picks" with
        | .error e => (st, .importFailed e)
        | .ok docPicks =>
          if !truthy docPicks then (st, .importFailed "Missing name or picks")
          else
            match updateLeaderboard { st with importedPicks := st.importedPicks ++ [doc] } with
            | (st, none) => (st, .imported name)
            | (st, some e) => (st, .importFailed e)

/-- The built-in schedule (lines 16-32). -/
def defaultSchedule : JVal :=
  let game (home away : String) : JVal := .obj [("home", .str home), ("away", .str away)]
  .obj [
    ("1", .arr [game "Cowboys" "Giants", game "Packers" "Bears", game "Chiefs" "Broncos"]),
    ("2", .arr [game "Patriots" "Jets", game "Vikings" "Lions", game "Rams" "Seahawks"]),
    ("3", .arr [game "Eagles" "Washington", game "Steelers" "Bengals",
      game "49ers" "Cardinals"])]

/-! ## Vocabulary of the specification -/

/-- Field `k` of a document; `undefined` when it is absent. -/
def fieldOf (v : JVal) (k : String) : JVal :=
  match getProp v k with
  | .ok x => x
  | .error _ => .undefined

/-- The pick a Pick Set holds at a week and position; `undefined` is "no pick
made". -/
def pickAt (picks : JVal) (week : String) (i : Nat) : JVal :=
  match getProp picks week with
  | .ok pw =>
    if truthy pw then
      match getIdx pw i with
      | .ok v => v
      | .error _ => .undefined
    else .undefined
  | .error _ => .undefined

/-- The outcome sequence a Result Set holds for a week (empty when it holds none). -/
def weekOutcomes (results : JVal) (week : String) : List JVal :=
  match getProp results week with
  | .ok (.arr xs) => xs
  | _ => []

/-- The matchups a Schedule holds for a week (empty when it holds none). -/
def weekGames (schedule : JVal) (week : String) : List JVal :=
  match getProp schedule week with
  | .ok (.arr games) => games
  | _ => []

/-- Adding the pick `side` at a week and position to a Pick Set, the way the
script does it for the local user: line 155 makes sure `picks[week]` exists and
line 177 assigns `picks[week][index] = side`. -/
def addPick (picks : JObj) (week : String) (index : Nat) (side : String) : JObj :=
  let ensured := if !truthy (objGet picks week) then objSet picks week (.obj []) else picks
  match setIdx (objGet ensured week) index (.str side) with
  | .ok weekPicks => objSet ensured week weekPicks
  | .error _ => ensured

/-- An imported document with a pick added to its Pick Set. -/
def docWithPick (doc : JVal) (week : String) (index : Nat) (side : String) : JVal :=
  match doc with
  | .obj members =>
    match objGet members "picks" with
    | .obj docPicks => .obj (objSet members "picks" (.obj (addPick docPicks week index side)))
    | _ => doc
  | d => d

/-- A state with its list of imported participants replaced. -/
def withImported (st : AppState) (players : List JVal) : AppState :=
  { st with importedPicks := players }

/-- The side that matches a defined outcome: home for 0, away for 1. -/
def matchingSide (outcome : Int) : String :=
  if outcome = 0 then "home" else "away"

/-- The edit of an exported file that changes the participant name. -/
def renameDoc (doc : JVal) (name : String) : JVal :=
  match doc with
  | .obj members => .obj (objSet members "name" (.str name))
  | d => d

/-- The `disabled` flags of the pick controls shown, row by row. -/
def pickControlsDisabled : Content → List (List Bool)
  | .week rows _ => rows.map (fun r => r.inputs.map (fun inp => inp.disabled))
  | .text _ => []

/-- The entry a Result Set holds at a week and position. -/
def entryAt (results : JVal) (week : String) (i : Nat) : JVal :=
  (weekOutcomes results week).getD i .undefined

/-- The (week, position) pairs of a Result Set. -/
def positions (results : JVal) : List (String × Nat) :=
  match objectKeys results with
  | .ok keys => keys.flatMap (fun w => (List.range (weekOutcomes results w).length).map (fun i => (w, i)))
  | .error _ => []

/-- A defined Outcome: 0 (home won) or 1 (away won). -/
def definedOutcome : JVal → Option Int
  | .num n => if n = 0 ∨ n = 1 then some n else none
  | _ => none

/-- The translation of a Side to an Outcome: home to 0, away to 1. -/
def sideOutcome : JVal → Option Int
  | .str s => if s = "home" then some 0 else if s = "away" then some 1 else none
  | _ => none

/-- The correct count of the specification: the number of (week, position)
pairs with a defined outcome at which the participant has a pick whose
translation equals that outcome. -/
def specCorrect (picks results : JVal) : Nat :=
  (positions results).countP (fun p =>
    match definedOutcome (entryAt results p.1 p.2) with
    | some res => sideOutcome (pickAt picks p.1 p.2) == some res
    | none => false)

/-- Whether a Result Set has no defined outcome at any (week, position) pair. -/
def noDefinedOutcome (results : JVal) : Bool :=
  (positions results).all (fun p => (definedOutcome (entryAt results p.1 p.2)).isNone)

/-- Whether the scoring loops count position `i` of `week`, whose entry is
`res`: a pick is stored there and `chosen === res`. -/
def contributes (picks : JVal) (week : String) (i : Nat) (res : JVal) : Bool :=
  !isUndefined (pickAt picks week i) && chosenMatches (pickAt picks week i) res

/-- The number of (week, position) pairs of the Result Set the scoring loops
count for a Pick Set. -/
def scoreOf (picks results : JVal) : Nat :=
  (positions results).countP (fun p => contributes picks p.1 p.2 (entryAt results p.1 p.2))

/-- An entry of an outcome sequence: 0, 1 or undecided (`null`). -/
def isOutcome : JVal → Bool
  | .num n => n == 0 || n == 1
  | .null => true
  | _ => false

/-- A sequence of outcomes. -/
def isOutcomeSeq : JVal → Bool
  | .arr xs => xs.all isOutcome
  | _ => false

/-- A Result Set: a mapping of week identifiers to sequences of 0 / 1 / null. -/
def isResultSet : JVal → Bool
  | .obj kvs => kvs.all (fun p => isOutcomeSeq p.2)
  | _ => false

/-- The test `Array.isArray(v)`. -/
def isArr : JVal → Bool
  | .arr _ => true
  | _ => false

/-- Whether a value is a plain object. -/
def isObj : JVal → Bool
  | .obj _ => true
  | _ => false

/-- A mapping of week identifiers to sequences, with any entries. -/
def isSequenceMap : JVal → Bool
  | .obj kvs => kvs.all (fun p => isArr p.2)
  | _ => false

/-- A Side: "home" or "away". -/
def isSide : JVal → Bool
  | .str s => s == "home" || s == "away"
  | _ => false

/-- The picks of one week: a mapping of positions to Sides. -/
def isWeekPicks : JVal → Bool
  | .obj m => m.all (fun q => isSide q.2)
  | _ => false

/-- A Pick Set: a mapping of week identifiers to mappings of positions to Sides. -/
def isPickSet : JVal → Bool
  | .obj kvs => kvs.all (fun p => isWeekPicks p.2)
  | _ => false

/-- A mapping of week identifiers to mappings of positions to stored values of
any kind. -/
def isPickStore : JVal → Bool
  | .obj kvs => kvs.all (fun p => isObj p.2)
  | _ => false

/-- A matchup: an object with text members `home` and `away`. -/
def isMatchup : JVal → Bool
  | .obj m =>
    (match objGet m "home" with
      | .str _ => true
      | _ => false)
    && (match objGet m "away" with
      | .str _ => true
      | _ => false)
  | _ => false

/-- A Schedule: a mapping of week identifiers to sequences of matchups. -/
def isSchedule : JVal → Bool
  | .obj kvs => kvs.all (fun p =>
    match p.2 with
    | .arr games => games.all isMatchup
    | _ => false)
  | _ => false

/-- What `handleImportFile` checks before it appends a document: `name` and
`picks` are both truthy. -/
def isParticipant (doc : JVal) : Bool :=
  truthy (fieldOf doc "name") && truthy (fieldOf doc "picks")

/-! ## Scenarios -/

/-- The state of Scenario A: week "1" has three results 0, 1, 1 and the local
user picked home for game 0 and away for game 1. -/
def scenarioA : AppState :=
  { schedule := defaultSchedule
    picks := [("1", .obj [("0", .str "home"), ("1", .str "away")])]
    results := .obj [("1", .arr [.num 0, .num 1, .num 1])]
    tiebreakers := []
    importedPicks := []
    userName := "Player 1"
    storage := []
    weekTabs := []
    content := .text ""
    leaderboardHidden := true
    leaderboardTable := [] }

/-- A state whose only week holds two undecided entries. -/
def undecidedOnly : AppState :=
  { scenarioA with results := .obj [("1", .arr [.null, .null])] }

/-- A state with picks and an imported participant whose only week has an
empty outcome sequence. -/
def noEntries : AppState :=
  { scenarioA with
    results := .obj [("1", .arr [])]
    importedPicks := [.obj [("name", .str "Sam"), ("picks", .obj [("1", .obj [("0", .str "home")])])]]
    leaderboardHidden := false
    leaderboardTable := [⟨.str "Player 1", 2⟩] }

instance byCorrectDesc_total : IsTotal ScoreRow (fun a b => byCorrectDesc a b ≤ 0) :=
  ⟨fun a b => by simp only [byCorrectDesc]; omega⟩

instance byCorrectDesc_trans : IsTrans ScoreRow (fun a b => byCorrectDesc a b ≤ 0) :=
  ⟨fun a b c hab hbc => by simp only [byCorrectDesc] at *; omega⟩

/-- The state of Scenario E: the local user and the import named "Sam" both
have three correct picks. -/
def scenarioE : AppState :=
  { scenarioA with
    picks := [("1", .obj [("0", .str "home"), ("1", .str "away"), ("2", .str "away")])]
    importedPicks := [.obj [("name", .str "Sam"),
      ("picks", .obj [("1", .obj [("0", .str "home"), ("1", .str "away"), ("2", .str "away")])])]] }

/-- A state whose local user stored the value "foo" for game 0 of week "1",
which the away team won. -/
def strayPick : AppState :=
  { scenarioA with
    picks := [("1", .obj [("0", .str "foo")])]
    results := .obj [("1", .arr [.num 1])] }

/-- The document of Scenario D: a name but no `picks`. -/
def docWithoutPicks : JVal := .obj [("name", .str "Alex")]

/-- The document of Scenario C. -/
def docAlex : JVal := .obj [("name", .str "Alex"), ("picks", .obj [("1", .obj [("0", .str "away")])])]

/-- A document that is not a Schedule: week "1" maps to a number. -/
def notASchedule : JVal := .obj [("1", .num 5)]

/-- A state whose week "1" has three matchups and results for the first two. -/
def partialResults : AppState :=
  { scenarioA with results := .obj [("1", .arr [.num 0, .num 1])] }

/-- The state of Scenario A with the imported document of "Sam", who picked
home for game 0 of week "1". -/
def scenarioWithSam : AppState :=
  { scenarioA with
    importedPicks := [.obj [("name", .str "Sam"), ("picks", .obj [("1", .obj [("0", .str "home")])])]] }

/-! ## Lemmas on the host pieces -/

theorem digitChar_value (k : Nat) (h : k < 10) : (Nat.digitChar k).toNat - 48 = k := by
  interval_cases k <;> rfl

theorem foldl_toDigitsCore (fuel : Nat) : ∀ (n : Nat) (ds : List Char), n < fuel →
    (Nat.toDigitsCore 10 fuel n ds).foldl (fun acc c => 10 * acc + (c.toNat - 48)) 0
      = ds.foldl (fun acc c => 10 * acc + (c.toNat - 48)) n := by
  induction fuel with
  | zero => intro n ds h; omega
  | succ fuel ih =>
    intro n ds h
    simp only [Nat.toDigitsCore]
    split
    · rename_i h0
      simp only [List.foldl_cons]
      have hn : n < 10 := by omega
      rw [Nat.mod_eq_of_lt hn, digitChar_value n hn]
      simp
    · rename_i h0
      rw [ih (n / 10) _ (by omega)]
      simp only [List.foldl_cons]
      rw [digitChar_value _ (Nat.mod_lt _ (by decide))]
      congr 1
      omega

theorem decimalValue_toString (n : Nat) : decimalValue (toString n).data = n := by
  show decimalValue (Nat.repr n).data = n
  unfold Nat.repr Nat.toDigits decimalValue
  simp only [List.asString]
  rw [foldl_toDigitsCore _ _ _ (Nat.lt_succ_self n)]
  rfl

theorem toString_nat_injective {a b : Nat} (h : toString a = toString b) : a = b := by
  have := congrArg (fun s => decimalValue s.data) h
  simpa [decimalValue_toString] using this

theorem find_range_toString (n i : Nat) (h : i < n) :
    (List.range n).find? (fun j => decide (toString j = toString i)) = some i := by
  induction n with
  | zero => omega
  | succ n ih =>
    rw [List.range_succ, List.find?_append]
    by_cases hi : i < n
    · rw [ih hi]; rfl
    · have : i = n := by omega
      subst this
      have hnone : (List.range i).find? (fun j => decide (toString j = toString i)) = none := by
        rw [List.find?_eq_none]
        intro x hx
        have hlt : x < i := List.mem_range.mp hx
        simp only [decide_eq_true_eq]
        intro hEq
        have := toString_nat_injective hEq
        omega
      rw [hnone]
      simp

theorem toString_nat_ne_length (i : Nat) : toString i ≠ "length" := by
  intro h
  have h1 := decimalValue_toString i
  rw [h] at h1
  subst h1
  revert h
  decide

theorem getIdx_arr (xs : List JVal) (i : Nat) :
    getIdx (.arr xs) i = .ok (xs.getD i .undefined) := by
  simp only [getIdx, getProp, arrGet, if_neg (toString_nat_ne_length i), indexOfKey]
  by_cases h : i < xs.length
  · rw [find_range_toString _ _ h]
  · have hnone : (List.range xs.length).find? (fun j => decide (toString j = toString i)) = none := by
      rw [List.find?_eq_none]
      intro x hx
      have hlt : x < xs.length := List.mem_range.mp hx
      simp only [decide_eq_true_eq]
      intro hEq
      have := toString_nat_injective hEq
      omega
    rw [hnone]
    simp [List.getElem?_eq_none (Nat.le_of_not_lt h)]

/-! ## Lemmas on the scoring loops -/

theorem getProp_ok_of_truthy (v : JVal) (k : String) (h : truthy v = true) :
    ∃ x, getProp v k = .ok x := by
  cases v <;> simp [truthy] at h <;> simp [getProp]

theorem getProp_obj (kvs : JObj) (k : String) : getProp (.obj kvs) k = .ok (objGet kvs k) := rfl

theorem objGet_of_all (P : JVal → Bool) (kvs : JObj) (h : kvs.all (fun p => P p.2) = true)
    (k : String) : objGet kvs k = .undefined ∨ P (objGet kvs k) = true := by
  induction kvs with
  | nil => left; rfl
  | cons p rest ih =>
    obtain ⟨k', v⟩ := p
    simp only [List.all_cons, Bool.and_eq_true] at h
    simp only [objGet]
    split
    · right; exact h.1
    · exact ih h.2

theorem localStep_eq (picks : JVal) (week : String) (s : Nat) (res : JVal) (i : Nat)
    (pw : JVal) (hp : getProp picks week = .ok pw) :
    localStep picks week s res i = .ok (s + if contributes picks week i res then 1 else 0) := by
  unfold localStep contributes pickAt
  rw [hp]
  simp only [bind, Except.bind, pure, Except.pure]
  by_cases ht : truthy pw = true
  · obtain ⟨x, hx⟩ := getProp_ok_of_truthy pw (toString i) ht
    simp only [ht, getIdx, hx, if_true]
    by_cases hu : isUndefined x = true <;> by_cases hc : chosenMatches x res = true <;>
      simp [hu, hc]
  · simp [ht, isUndefined]

theorem importedStep_eq_localStep (player pk : JVal) (week : String) (s : Nat) (res : JVal)
    (i : Nat) (hp : getProp player "picks" = .ok pk) :
    importedStep player week s res i = localStep pk week s res i := by
  unfold importedStep localStep
  rw [hp]
  simp only [bind, Except.bind, pure, Except.pure]
  cases hw : getProp pk week with
  | error e => rfl
  | ok pw =>
    by_cases ht : truthy pw = true
    · simp only [ht, if_true]
    · simp [ht, isUndefined]

theorem forEachIdx_count {α : Type} (f : Nat → α → Nat → Except String Nat) (q : Nat → Bool) :
    ∀ (xs : List α) (i0 s : Nat),
      (∀ (s j : Nat) (x : α), xs.get? j = some x →
          f s x (i0 + j) = .ok (s + if q (i0 + j) then 1 else 0)) →
      forEachIdx f xs i0 s = .ok (s + (List.range' i0 xs.length).countP q) := by
  intro xs
  induction xs with
  | nil => intro i0 s _; simp [forEachIdx]
  | cons x xs ih =>
    intro i0 s h
    have h0 := h s 0 x rfl
    simp only [Nat.add_zero] at h0
    simp only [forEachIdx, h0, List.length_cons, List.range'_succ, List.countP_cons]
    rw [ih (i0 + 1) _ (fun s' j y hy => by
      have := h s' (j + 1) y (by simpa using hy)
      rw [show i0 + 1 + j = i0 + (j + 1) by omega]
      exact this)]
    congr 1
    by_cases hq : q i0 = true <;> simp [hq]; omega

theorem forEachKey_sum (f : Nat → String → Except String Nat) (g : String → Nat) :
    ∀ (ks : List String) (s : Nat), (∀ (s : Nat) (k : String), k ∈ ks → f s k = .ok (s + g k)) →
      forEachKey f ks s = .ok (s + (ks.map g).sum) := by
  intro ks
  induction ks with
  | nil => intro s _; simp [forEachKey]
  | cons k ks ih =>
    intro s h
    simp only [forEachKey, h s k (List.mem_cons_self _ _), List.map_cons, List.sum_cons]
    rw [ih _ (fun s' k' hk => h s' k' (List.mem_cons_of_mem _ hk))]
    congr 1
    omega

theorem weekLoop_eq (picks : JVal) (kvs : JObj) (hres : isSequenceMap (.obj kvs) = true)
    (hpicks : ∀ w, ∃ pw, getProp picks w = .ok pw) (s : Nat) (week : String) :
    (do
      let rw ← getProp (JVal.obj kvs) week
      arrayForEach (if truthy rw then rw else .arr []) (localStep picks week) s)
    = .ok (s + (List.range (weekOutcomes (.obj kvs) week).length).countP
        (fun i => contributes picks week i (entryAt (.obj kvs) week i))) := by
  simp only [getProp_obj, bind, Except.bind]
  have hcases := objGet_of_all isArr kvs hres week
  obtain ⟨pw, hpw⟩ := hpicks week
  have hgen : ∀ xs : List JVal, weekOutcomes (.obj kvs) week = xs →
      forEachIdx (localStep picks week) xs 0 s = .ok (s + (List.range xs.length).countP
        (fun i => contributes picks week i (entryAt (.obj kvs) week i))) := by
    intro xs hxs
    rw [List.range_eq_range']
    apply forEachIdx_count
    intro s' j x hx
    rw [localStep_eq picks week s' x (0 + j) pw hpw]
    simp only [Nat.zero_add]
    have : entryAt (.obj kvs) week j = x := by
      simp only [entryAt, hxs, List.getD_eq_getElem?_getD]
      rw [List.get?_eq_getElem?] at hx
      rw [hx]; rfl
    rw [this]
  rcases hcases with hu | hseq
  · have hw : weekOutcomes (.obj kvs) week = [] := by simp [weekOutcomes, getProp_obj, hu]
    simp only [hu, truthy, arrayForEach]
    simpa [hw] using hgen [] hw
  · cases hv : objGet kvs week with
    | arr xs =>
      have hw : weekOutcomes (.obj kvs) week = xs := by simp [weekOutcomes, getProp_obj, hv]
      simp only [truthy, arrayForEach, if_true]
      rw [hw]
      exact hgen xs hw
    | _ => rw [hv] at hseq; simp [isArr] at hseq

theorem objectKeys_obj (kvs : JObj) : objectKeys (.obj kvs) = .ok (ownKeys kvs) := rfl

theorem localScore_eq (picks results : JVal) (hres : isSequenceMap results = true)
    (hpicks : ∀ w, ∃ pw, getProp picks w = .ok pw) :
    localScore picks results = .ok (scoreOf picks results) := by
  cases results with
  | obj kvs =>
    unfold localScore scoreOf positions
    simp only [objectKeys_obj, bind, Except.bind]
    rw [forEachKey_sum _ (fun week => (List.range (weekOutcomes (.obj kvs) week).length).countP
        (fun i => contributes picks week i (entryAt (.obj kvs) week i)))]
    · simp only [Nat.zero_add, List.countP_flatMap]
      congr 2
      apply List.map_congr_left
      intro w _
      simp [List.countP_map, Function.comp_def]
    · intro s k _
      exact weekLoop_eq picks kvs hres hpicks s k
  | _ => simp [isSequenceMap] at hres

theorem importedScore_eq_localScore (player pk results : JVal)
    (hp : getProp player "picks" = .ok pk) :
    importedScore player results = localScore pk results := by
  unfold importedScore localScore
  have : importedStep player = localStep pk := by
    funext week s res i
    exact importedStep_eq_localStep player pk week s res i hp
  rw [this]

theorem getProp_of_fieldOf_truthy (p : JVal) (k : String) (h : truthy (fieldOf p k) = true) :
    getProp p k = .ok (fieldOf p k) := by
  unfold fieldOf at h ⊢
  cases hg : getProp p k with
  | ok x => rfl
  | error e => rw [hg] at h; simp [truthy] at h

theorem getProp_ok_of_fieldOf_truthy (p : JVal) (k k2 : String)
    (h : truthy (fieldOf p k) = true) : getProp p k2 = .ok (fieldOf p k2) := by
  cases p <;> simp [fieldOf, getProp, truthy] at h ⊢

theorem importedRows_eq (results : JVal) (hres : isSequenceMap results = true) :
    ∀ (players : List JVal), (∀ p ∈ players, truthy (fieldOf p "picks") = true) →
      importedRows results players = .ok (players.map (fun p =>
        (⟨fieldOf p "name", scoreOf (fieldOf p "picks") results⟩ : ScoreRow))) := by
  intro players
  induction players with
  | nil => intro _; rfl
  | cons p rest ih =>
    intro h
    have hp := h p (List.mem_cons_self _ _)
    have hpk := getProp_of_fieldOf_truthy p "picks" hp
    have hname := getProp_ok_of_fieldOf_truthy p "picks" "name" hp
    have hscore : importedScore p results = .ok (scoreOf (fieldOf p "picks") results) := by
      rw [importedScore_eq_localScore p _ results hpk]
      exact localScore_eq _ results hres (fun w => getProp_ok_of_truthy _ w hp)
    simp only [importedRows, hscore, hname, ih (fun q hq => h q (List.mem_cons_of_mem _ hq)),
      bind, Except.bind, pure, Except.pure, List.map_cons]

theorem computeScores_eq (st : AppState) (hres : isSequenceMap st.results = true)
    (himp : ∀ p ∈ st.importedPicks, truthy (fieldOf p "picks") = true) :
    computeScores st = .ok (⟨.str st.userName, scoreOf (.obj st.picks) st.results⟩ ::
      st.importedPicks.map (fun p =>
        (⟨fieldOf p "name", scoreOf (fieldOf p "picks") st.results⟩ : ScoreRow))) := by
  unfold computeScores
  rw [localScore_eq _ _ hres (fun w => ⟨_, getProp_obj st.picks w⟩),
    importedRows_eq _ hres _ himp]
  rfl

theorem isSequenceMap_of_isResultSet (results : JVal) (h : isResultSet results = true) :
    isSequenceMap results = true := by
  cases results with
  | obj kvs =>
    simp only [isResultSet, isSequenceMap, List.all_eq_true] at h ⊢
    intro p hp
    have := h p hp
    cases hv : p.2 <;> simp [hv, isOutcomeSeq, isArr] at this ⊢
  | _ => simp [isResultSet] at h

theorem isOutcome_cases (v : JVal) (h : isOutcome v = true) :
    v = .num 0 ∨ v = .num 1 ∨ v = .null := by
  cases v with
  | num n =>
    simp only [isOutcome, Bool.or_eq_true, beq_iff_eq] at h
    rcases h with h | h <;> simp [h]
  | null => simp
  | _ => simp [isOutcome] at h

theorem isSide_cases (v : JVal) (h : isSide v = true) : v = .str "home" ∨ v = .str "away" := by
  cases v with
  | str s =>
    simp only [isSide, Bool.or_eq_true, beq_iff_eq] at h
    rcases h with h | h <;> simp [h]
  | _ => simp [isSide] at h

theorem entryAt_cases (results : JVal) (h : isResultSet results = true) (w : String) (i : Nat) :
    entryAt results w i = .undefined ∨ isOutcome (entryAt results w i) = true := by
  cases results with
  | obj kvs =>
    simp only [entryAt, weekOutcomes, getProp_obj]
    rcases objGet_of_all isOutcomeSeq kvs h w with hu | hseq
    · left; simp [hu]
    · cases hv : objGet kvs w with
      | arr xs =>
        rw [hv] at hseq
        simp only [isOutcomeSeq, List.all_eq_true] at hseq
        simp only [List.getD_eq_getElem?_getD]
        cases hx : xs[i]? with
        | none => left; rfl
        | some x => right; exact hseq x (List.getElem?_mem hx)
      | _ => left; rfl
  | _ => simp [isResultSet] at h

theorem pickAt_cases (picks : JVal) (h : isPickSet picks = true) (w : String) (i : Nat) :
    pickAt picks w i = .undefined ∨ isSide (pickAt picks w i) = true := by
  cases picks with
  | obj kvs =>
    simp only [pickAt, getProp_obj]
    rcases objGet_of_all isWeekPicks kvs h w with hu | hwk
    · left; simp [hu, truthy]
    · cases hv : objGet kvs w with
      | obj m =>
        rw [hv] at hwk
        simp only [truthy, getIdx, getProp_obj, if_true]
        exact objGet_of_all isSide m hwk (toString i)
      | _ => rw [hv] at hwk; simp [isWeekPicks] at hwk
  | _ => simp [isPickSet] at h

theorem scoreOf_eq_specCorrect (picks results : JVal) (hres : isResultSet results = true)
    (hpicks : isPickSet picks = true) : scoreOf picks results = specCorrect picks results := by
  unfold scoreOf specCorrect
  apply List.countP_congr
  intro p _
  have he : entryAt results p.1 p.2 = .undefined ∨ entryAt results p.1 p.2 = .num 0 ∨
      entryAt results p.1 p.2 = .num 1 ∨ entryAt results p.1 p.2 = .null := by
    rcases entryAt_cases results hres p.1 p.2 with he | he
    · exact Or.inl he
    · exact Or.inr (isOutcome_cases _ he)
  have hp : pickAt picks p.1 p.2 = .undefined ∨ pickAt picks p.1 p.2 = .str "home" ∨
      pickAt picks p.1 p.2 = .str "away" := by
    rcases pickAt_cases picks hpicks p.1 p.2 with hp | hp
    · exact Or.inl hp
    · exact Or.inr (isSide_cases _ hp)
  rcases he with he | he | he | he <;> rcases hp with hp | hp | hp <;>
    simp [contributes, he, hp, isUndefined, definedOutcome, sideOutcome, chosenMatches,
      strictEqStr, strictEqNum]

/-! ## The claims -/

/-- C1: for a Result Set with entries 0, 1 or null and a roster of imported
documents, `updateLeaderboard` records one entry per participant, in roster
order, and for every participant whose picks are each "home", "away" or absent
(the local user, or any imported one) the `correct` it records is the number of
(week, position) pairs with a defined outcome at which the participant has a
pick translating to that outcome; when results exist, the table shown is these
entries sorted. -/
theorem updateLeaderboard_records_spec_count (st : AppState)
    (hres : isResultSet st.results = true)
    (hroster : ∀ p ∈ st.importedPicks, isParticipant p = true) :
    ∃ rows : List ScoreRow,
      computeScores st = .ok rows
      ∧ rows.length = st.importedPicks.length + 1
      ∧ (isPickSet (.obj st.picks) = true →
          rows.get? 0 = some ⟨.str st.userName, specCorrect (.obj st.picks) st.results⟩)
      ∧ (∀ (k : Nat) (p : JVal), st.importedPicks.get? k = some p →
          isPickSet (fieldOf p "picks") = true →
          rows.get? (k + 1)
            = some ⟨fieldOf p "name", specCorrect (fieldOf p "picks") st.results⟩)
      ∧ (hasResults st.results = .ok true →
          (updateLeaderboard st).1.leaderboardHidden = false
          ∧ (updateLeaderboard st).1.leaderboardTable = jsSort byCorrectDesc rows) := by
  have hseq := isSequenceMap_of_isResultSet _ hres
  have htruthy : ∀ p ∈ st.importedPicks, truthy (fieldOf p "picks") = true := by
    intro p hp
    have := hroster p hp
    simp only [isParticipant, Bool.and_eq_true] at this
    exact this.2
  have hscores := computeScores_eq st hseq htruthy
  refine ⟨_, hscores, by simp, ?_, ?_, ?_⟩
  · intro hloc
    simp only [List.get?_cons_zero, scoreOf_eq_specCorrect _ _ hres hloc]
  · intro k p hk hp
    simp only [List.get?_eq_getElem?] at hk ⊢
    rw [List.getElem?_cons_succ, List.getElem?_map, hk]
    simp only [Option.map_some', scoreOf_eq_specCorrect _ _ hres hp]
  · intro hhas
    simp only [updateLeaderboard, hhas, hscores, and_self]

/-- Witness for C1 (Scenario A): picks week "1" = (0: home, 1: away) against
results [0, 1, 1] record `correct` = 2 for the local user. -/
theorem updateLeaderboard_records_spec_count_witness :
    specCorrect (.obj scenarioA.picks) scenarioA.results = 2
    ∧ ∃ rows : List ScoreRow,
      computeScores scenarioA = .ok rows
      ∧ rows.length = scenarioA.importedPicks.length + 1
      ∧ (isPickSet (.obj scenarioA.picks) = true →
          rows.get? 0
            = some ⟨.str scenarioA.userName, specCorrect (.obj scenarioA.picks) scenarioA.results⟩)
      ∧ (∀ (k : Nat) (p : JVal), scenarioA.importedPicks.get? k = some p →
          isPickSet (fieldOf p "picks") = true →
          rows.get? (k + 1)
            = some ⟨fieldOf p "name", specCorrect (fieldOf p "picks") scenarioA.results⟩)
      ∧ (hasResults scenarioA.results = .ok true →
          (updateLeaderboard scenarioA).1.leaderboardHidden = false
          ∧ (updateLeaderboard scenarioA).1.leaderboardTable = jsSort byCorrectDesc rows) :=
  ⟨rfl, updateLeaderboard_records_spec_count scenarioA rfl
    (fun _ h => absurd h (List.not_mem_nil _))⟩

/-- C2, counterexample: the Result Set with week "1" = [null, null] has no
defined outcome, yet `updateLeaderboard` shows the leaderboard, with a row for
the local user. -/
theorem updateLeaderboard_shown_for_undecided_only :
    isResultSet undecidedOnly.results = true
    ∧ noDefinedOutcome undecidedOnly.results = true
    ∧ ¬ ((updateLeaderboard undecidedOnly).1.leaderboardHidden = true
        ∧ (updateLeaderboard undecidedOnly).1.leaderboardTable.length = 0) :=
  ⟨rfl, rfl, fun h => absurd h.1 (by decide)⟩

theorem someKey_false (pred : String → Except String Bool) :
    ∀ ks : List String, (∀ k ∈ ks, pred k = .ok false) → someKey pred ks = .ok false := by
  intro ks
  induction ks with
  | nil => intro _; rfl
  | cons k ks ih =>
    intro h
    simp only [someKey, h k (List.mem_cons_self _ _)]
    exact ih (fun k' hk => h k' (List.mem_cons_of_mem _ hk))

theorem hasResults_false_of_no_positions (results : JVal)
    (hres : isSequenceMap results = true) (hempty : (positions results).isEmpty = true) :
    hasResults results = .ok false := by
  cases results with
  | obj kvs =>
    simp only [hasResults, objectKeys_obj, bind, Except.bind]
    apply someKey_false
    intro k hk
    have hnil : (List.range (weekOutcomes (.obj kvs) k).length).map (fun i => (k, i)) = [] := by
      simp only [positions, objectKeys_obj, List.isEmpty_iff] at hempty
      exact List.flatMap_eq_nil_iff.mp hempty k hk
    have hlen : (weekOutcomes (.obj kvs) k).length = 0 := by
      simpa using hnil
    simp only [getProp_obj]
    rcases objGet_of_all isArr kvs hres k with hu | harr
    · simp [hu, truthy, pure, Except.pure]
    · cases hv : objGet kvs k with
      | arr xs =>
        have hx : xs.length = 0 := by
          simpa [weekOutcomes, getProp_obj, hv] using hlen
        simp [truthy, getProp, arrGet, hx, gtZero, pure, Except.pure]
      | _ => rw [hv] at harr; simp [isArr] at harr
  | _ => simp [isSequenceMap] at hres

/-- C2 (amended): for every Result Set that holds no entry at all (every week
present maps to an empty sequence), whatever the Roster and the Pick Sets,
`updateLeaderboard` hides the leaderboard and leaves it without rows. -/
theorem updateLeaderboard_hidden_when_no_entries (st : AppState)
    (hres : isResultSet st.results = true)
    (hempty : (positions st.results).isEmpty = true) :
    updateLeaderboard st =
      ({ st with leaderboardHidden := true, leaderboardTable := [] }, none) := by
  simp only [updateLeaderboard,
    hasResults_false_of_no_positions _ (isSequenceMap_of_isResultSet _ hres) hempty]

/-- Witness for C2 (amended). -/
theorem updateLeaderboard_hidden_when_no_entries_witness :
    updateLeaderboard noEntries =
      ({ noEntries with leaderboardHidden := true, leaderboardTable := [] }, none) :=
  updateLeaderboard_hidden_when_no_entries noEntries rfl rfl

theorem importedRows_names (results : JVal) :
    ∀ (players : List JVal) (rows : List ScoreRow), importedRows results players = .ok rows →
      rows.map (fun r => r.name) = players.map (fun p => fieldOf p "name") := by
  intro players
  induction players with
  | nil =>
    intro rows h
    simp only [importedRows, Except.ok.injEq] at h
    subst h; rfl
  | cons p rest ih =>
    intro rows h
    simp only [importedRows, bind, Except.bind, pure, Except.pure] at h
    cases hs : importedScore p results with
    | error e => rw [hs] at h; simp at h
    | ok score =>
      cases hn : getProp p "name" with
      | error e => rw [hs, hn] at h; simp at h
      | ok name =>
        cases hr : importedRows results rest with
        | error e => rw [hs, hn, hr] at h; simp at h
        | ok rows' =>
          rw [hs, hn, hr] at h
          simp only [Except.ok.injEq] at h
          subst h
          simp only [List.map_cons, ih rows' hr, fieldOf, hn]

theorem computeScores_names (st : AppState) (scores : List ScoreRow)
    (h : computeScores st = .ok scores) :
    scores.map (fun r => r.name)
      = .str st.userName :: st.importedPicks.map (fun p => fieldOf p "name") := by
  simp only [computeScores, bind, Except.bind, pure, Except.pure] at h
  cases hl : localScore (.obj st.picks) st.results with
  | error e => rw [hl] at h; simp at h
  | ok score =>
    cases hr : importedRows st.results st.importedPicks with
    | error e => rw [hl, hr] at h; simp at h
    | ok rows =>
      rw [hl, hr] at h
      simp only [Except.ok.injEq] at h
      subst h
      simp only [List.map_cons, importedRows_names _ _ _ hr]

theorem jsSort_byCorrectDesc_stable (scores : List ScoreRow) (c : Nat) :
    (jsSort byCorrectDesc scores).filter (fun r => r.correct = c)
      = scores.filter (fun r => r.correct = c) := by
  have hsub : List.Sublist (scores.filter (fun r => r.correct = c))
      (jsSort byCorrectDesc scores) := by
    apply List.sublist_insertionSort
    · rw [List.pairwise_iff_forall_sublist]
      intro a b hab
      have ha : a ∈ scores.filter (fun r => r.correct = c) := hab.subset (by simp)
      have hb : b ∈ scores.filter (fun r => r.correct = c) := hab.subset (by simp)
      simp only [List.mem_filter, decide_eq_true_eq] at ha hb
      simp only [byCorrectDesc, ha.2, hb.2]
      omega
    · exact List.filter_sublist _
  have hsub2 := hsub.filter (fun r => decide (r.correct = c))
  rw [List.filter_filter] at hsub2
  simp only [Bool.and_self] at hsub2
  have hperm : ((jsSort byCorrectDesc scores).filter (fun r => r.correct = c)).Perm
      (scores.filter (fun r => r.correct = c)) :=
    (List.perm_insertionSort _ scores).filter _
  exact (hsub2.eq_of_length hperm.length_eq.symm).symm

/-- C3: whenever `updateLeaderboard` displays a ranking, the rows are the roster
entries (local user first, then the imported participants in import order)
rearranged by a stable descending sort on `correct`: a permutation of them,
non-increasing in `correct`, and for each value of `correct` the rows holding it
keep their roster order. -/
theorem updateLeaderboard_ranking_stable (st st' : AppState)
    (h : updateLeaderboard st = (st', none)) (hshown : st'.leaderboardHidden = false) :
    ∃ scores : List ScoreRow,
      computeScores st = .ok scores
      ∧ scores.map (fun r => r.name)
          = .str st.userName :: st.importedPicks.map (fun p => fieldOf p "name")
      ∧ st'.leaderboardTable.Perm scores
      ∧ st'.leaderboardTable.Sorted (fun a b => b.correct ≤ a.correct)
      ∧ ∀ c : Nat, st'.leaderboardTable.filter (fun r => r.correct = c)
          = scores.filter (fun r => r.correct = c) := by
  unfold updateLeaderboard at h
  cases hh : hasResults st.results with
  | error e => rw [hh] at h; simp at h
  | ok b =>
    cases b with
    | false =>
      rw [hh] at h
      simp only [Prod.mk.injEq, and_true] at h
      subst h
      simp at hshown
    | true =>
      rw [hh] at h
      cases hc : computeScores st with
      | error e => rw [hc] at h; simp at h
      | ok scores =>
        rw [hc] at h
        simp only [Prod.mk.injEq, and_true] at h
        subst h
        refine ⟨scores, rfl, computeScores_names st scores hc, ?_, ?_, ?_⟩
        · exact List.perm_insertionSort _ scores
        · have hs := List.sorted_insertionSort (fun a b => byCorrectDesc a b ≤ 0) scores
          refine List.Pairwise.imp ?_ hs
          intro a b hab
          simp only [byCorrectDesc] at hab
          omega
        · exact jsSort_byCorrectDesc_stable scores

/-- Witness for C3 (Scenario E): both participants score 3 and the output order
is local user, then Sam. -/
theorem updateLeaderboard_ranking_stable_witness :
    (updateLeaderboard scenarioE).1.leaderboardTable
        = [⟨.str "Player 1", 3⟩, ⟨.str "Sam", 3⟩]
    ∧ ∃ scores : List ScoreRow,
      computeScores scenarioE = .ok scores
      ∧ scores.map (fun r => r.name)
          = .str scenarioE.userName :: scenarioE.importedPicks.map (fun p => fieldOf p "name")
      ∧ (updateLeaderboard scenarioE).1.leaderboardTable.Perm scores
      ∧ (updateLeaderboard scenarioE).1.leaderboardTable.Sorted (fun a b => b.correct ≤ a.correct)
      ∧ ∀ c : Nat, (updateLeaderboard scenarioE).1.leaderboardTable.filter (fun r => r.correct = c)
          = scores.filter (fun r => r.correct = c) :=
  ⟨rfl, updateLeaderboard_ranking_stable scenarioE (updateLeaderboard scenarioE).1 rfl rfl⟩

/-- C4, counterexample: the stored value "foo" is neither "home" nor "away",
the outcome at its position is 1, and the pick increments `correct`. -/
theorem stray_pick_increments_correct :
    pickAt (.obj strayPick.picks) "1" 0 = .str "foo"
    ∧ isSide (.str "foo") = false
    ∧ entryAt strayPick.results "1" 0 = .num 1
    ∧ localStep (.obj strayPick.picks) "1" 0 (.num 1) 0 = .ok 1
    ∧ computeScores strayPick = .ok [⟨.str "Player 1", 1⟩] :=
  ⟨rfl, rfl, rfl, rfl, rfl⟩

theorem strictEqStr_home_of_not_side (v : JVal) (h : isSide v = false) :
    strictEqStr v "home" = false := by
  cases v with
  | str s =>
    simp only [isSide, Bool.or_eq_false_iff] at h
    simpa [strictEqStr] using h.1
  | _ => rfl

/-- C4 (amended): a stored pick value that is neither "home" nor "away" is
scored as an away pick, by the local loop and by the imported loop alike: it
increments `correct` exactly when the entry at its week and position is 1,
never when it is 0 or undecided, and the step does not fail. -/
theorem stray_pick_scored_as_away (picks : JVal) (week : String) (i : Nat) (res : JVal)
    (score : Nat) (hpicks : truthy picks = true)
    (hstored : isUndefined (pickAt picks week i) = false)
    (hstray : isSide (pickAt picks week i) = false) :
    localStep picks week score res i = .ok (if strictEqNum res 1 then score + 1 else score)
    ∧ ∀ player : JVal, getProp player "picks" = .ok picks →
        importedStep player week score res i
          = .ok (if strictEqNum res 1 then score + 1 else score) := by
  obtain ⟨pw, hpw⟩ := getProp_ok_of_truthy picks week hpicks
  have hloc : localStep picks week score res i
      = .ok (if strictEqNum res 1 then score + 1 else score) := by
    rw [localStep_eq picks week score res i pw hpw]
    simp only [contributes, hstored, chosenMatches, strictEqStr_home_of_not_side _ hstray]
    by_cases h1 : strictEqNum res 1 = true <;> simp [h1]
  refine ⟨hloc, ?_⟩
  intro player hp
  rw [importedStep_eq_localStep player picks week score res i hp]
  exact hloc

/-- Witness for C4 (amended): the value "foo" against the outcome 1 adds one,
for the local user and for an imported document. -/
theorem stray_pick_scored_as_away_witness :
    localStep (.obj strayPick.picks) "1" 0 (.num 1) 0 = .ok 1
    ∧ importedStep (.obj [("name", .str "Sam"), ("picks", .obj strayPick.picks)]) "1" 0
        (.num 1) 0 = .ok 1 :=
  ⟨(stray_pick_scored_as_away (.obj strayPick.picks) "1" 0 (.num 1) 0 rfl rfl rfl).1,
    (stray_pick_scored_as_away (.obj strayPick.picks) "1" 0 (.num 1) 0 rfl rfl rfl).2 _ rfl⟩

theorem updateLeaderboard_frame (st : AppState) :
    ∃ (hidden : Bool) (table : List ScoreRow),
      (updateLeaderboard st).1 = { st with leaderboardHidden := hidden, leaderboardTable := table } := by
  unfold updateLeaderboard
  cases hasResults st.results with
  | error e => exact ⟨st.leaderboardHidden, st.leaderboardTable, rfl⟩
  | ok b =>
    cases b with
    | false => exact ⟨true, [], rfl⟩
    | true =>
      cases computeScores st with
      | error e => exact ⟨st.leaderboardHidden, st.leaderboardTable, rfl⟩
      | ok scores => exact ⟨false, _, rfl⟩

theorem handleImportFile_rejects (st : AppState) (doc : JVal)
    (h : fieldOf doc "name" = .undefined ∨ fieldOf doc "name" = .str ""
      ∨ fieldOf doc "picks" = .undefined) :
    ∃ msg, handleImportFile (.ok doc) st = (st, .importFailed msg) := by
  cases hn : getProp doc "name" with
  | error e => exact ⟨e, by simp only [handleImportFile, hn]⟩
  | ok name =>
    have hname : fieldOf doc "name" = name := by simp [fieldOf, hn]
    by_cases ht : truthy name = true
    · cases hp : getProp doc "picks" with
      | error e => exact ⟨e, by simp [handleImportFile, hn, hp, ht]⟩
      | ok docPicks =>
        have hpicks : fieldOf doc "picks" = docPicks := by simp [fieldOf, hp]
        rcases h with h | h | h
        · rw [hname] at h; rw [h] at ht; simp [truthy] at ht
        · rw [hname] at h; rw [h] at ht; simp [truthy] at ht
        · rw [hpicks] at h
          subst h
          exact ⟨"Missing name or picks", by simp [handleImportFile, hn, hp, ht, truthy]⟩
    · exact ⟨"Missing name or picks", by simp [handleImportFile, hn, ht]⟩

theorem handleImportFile_appends (st : AppState) (doc : JVal) (name : String)
    (docPicks : JObj) (hne : name ≠ "") (hn : fieldOf doc "name" = .str name)
    (hp : fieldOf doc "picks" = .obj docPicks) :
    (handleImportFile (.ok doc) st).1.importedPicks = st.importedPicks ++ [doc] := by
  have hnt : truthy (fieldOf doc "name") = true := by simp [hn, truthy, hne]
  have hpt : truthy (fieldOf doc "picks") = true := by simp [hp, truthy]
  have h1 := getProp_of_fieldOf_truthy doc "name" hnt
  have h2 := getProp_of_fieldOf_truthy doc "picks" hpt
  obtain ⟨hidden, table, hframe⟩ :=
    updateLeaderboard_frame { st with importedPicks := st.importedPicks ++ [doc] }
  simp only [handleImportFile, h1, h2, hnt, hpt, Bool.not_true, Bool.false_eq_true, if_false]
  cases hu : updateLeaderboard { st with importedPicks := st.importedPicks ++ [doc] } with
  | mk st2 err =>
    rw [hu] at hframe
    simp only at hframe
    cases err <;> simp [hframe]

/-- C5: a document whose `name` is absent or empty, or whose `picks` is absent,
makes the import fail and leaves the state, with the list of imported
participants, as it was; a document with a non-empty name and a picks mapping
is appended at the end of that list, whatever names it already holds. -/
theorem handleImportFile_guard_and_append (st : AppState) (doc : JVal) :
    ((fieldOf doc "name" = .undefined ∨ fieldOf doc "name" = .str ""
        ∨ fieldOf doc "picks" = .undefined) →
      ∃ msg, handleImportFile (.ok doc) st = (st, .importFailed msg))
    ∧ (∀ (name : String) (docPicks : JObj), name ≠ "" →
        fieldOf doc "name" = .str name → fieldOf doc "picks" = .obj docPicks →
        (handleImportFile (.ok doc) st).1.importedPicks = st.importedPicks ++ [doc]
        ∧ (handleImportFile (.ok doc) st).1.importedPicks.length
            = st.importedPicks.length + 1) := by
  refine ⟨handleImportFile_rejects st doc, ?_⟩
  intro name docPicks hne hn hp
  have key := handleImportFile_appends st doc name docPicks hne hn hp
  exact ⟨key, by rw [key]; simp⟩

/-- Witness for C5 (Scenario D, and an accepted document whose name is already
in the roster). -/
theorem handleImportFile_guard_and_append_witness :
    (∃ msg, handleImportFile (.ok docWithoutPicks) scenarioE = (scenarioE, .importFailed msg))
    ∧ (handleImportFile (.ok docAlex) (handleImportFile (.ok docAlex) scenarioE).1).1.importedPicks.length
        = (handleImportFile (.ok docAlex) scenarioE).1.importedPicks.length + 1 :=
  ⟨(handleImportFile_guard_and_append scenarioE docWithoutPicks).1 (Or.inr (Or.inr rfl)),
    ((handleImportFile_guard_and_append (handleImportFile (.ok docAlex) scenarioE).1 docAlex).2
      "Alex" _ (by decide) rfl rfl).2⟩

/-! ### Administrative saves -/

theorem ensureWeekEntries_data (week : String) (st : AppState) :
    (ensureWeekEntries week st).schedule = st.schedule
    ∧ (ensureWeekEntries week st).results = st.results
    ∧ (ensureWeekEntries week st).importedPicks = st.importedPicks := by
  unfold ensureWeekEntries
  by_cases h1 : truthy (objGet st.picks week) = true <;>
    by_cases h2 : isUndefined (objGet st.tiebreakers week) = true <;> simp [h1, h2]

theorem ensureWeekEntries_of_empty (week : String) (st : AppState) (hp : st.picks = [])
    (ht : st.tiebreakers = []) :
    (ensureWeekEntries week st).picks = [(week, .obj [])]
    ∧ (ensureWeekEntries week st).tiebreakers = [(week, .str "")] := by
  simp [ensureWeekEntries, hp, ht, objGet, objSet, truthy, isUndefined]

theorem renderWeek_data (week : String) (st : AppState) :
    (renderWeek week st).1.results = st.results
    ∧ (renderWeek week st).1.importedPicks = st.importedPicks
    ∧ (((renderWeek week st).1.picks = st.picks
          ∧ (renderWeek week st).1.tiebreakers = st.tiebreakers)
        ∨ ((renderWeek week st).1.picks = (ensureWeekEntries week st).picks
          ∧ (renderWeek week st).1.tiebreakers = (ensureWeekEntries week st).tiebreakers)) := by
  unfold renderWeek
  obtain ⟨h1, h2, h3⟩ := ensureWeekEntries_data week st
  split
  · exact ⟨rfl, rfl, Or.inl ⟨rfl, rfl⟩⟩
  · split
    · simp only []
      split
      · exact ⟨h2, h3, Or.inr ⟨rfl, rfl⟩⟩
      · split
        · exact ⟨h2, h3, Or.inr ⟨rfl, rfl⟩⟩
        · rename_i _ rows _ _ tb _
          obtain ⟨hidden, table, hframe⟩ := updateLeaderboard_frame
            { ensureWeekEntries week st with content := .week rows (some tb) }
          rw [hframe]
          exact ⟨h2, h3, Or.inr ⟨rfl, rfl⟩⟩
    · exact ⟨rfl, rfl, Or.inl ⟨rfl, rfl⟩⟩

/-- C6, counterexample: saving the schedule the state already has succeeds and
leaves the local Pick Set as the object with week "1" mapped to an empty object,
and the Tiebreakers as the object with week "1" mapped to the empty text;
neither is the empty object. -/
theorem handleSaveSchedule_leaves_week_entries :
    scenarioA.schedule = defaultSchedule
    ∧ (handleSaveSchedule (.ok defaultSchedule) scenarioA).2 = Alert.scheduleSaved
    ∧ (handleSaveSchedule (.ok defaultSchedule) scenarioA).1.picks = [("1", .obj [])]
    ∧ (handleSaveSchedule (.ok defaultSchedule) scenarioA).1.tiebreakers = [("1", .str "")]
    ∧ ¬ ((handleSaveSchedule (.ok defaultSchedule) scenarioA).1.picks.length = 0
        ∧ (handleSaveSchedule (.ok defaultSchedule) scenarioA).1.tiebreakers.length = 0) :=
  ⟨rfl, rfl, rfl, rfl, fun h => absurd h.1 (by decide)⟩

/-- C6 (amended): after `handleSaveSchedule` has saved a new Schedule, the
Result Set and the imported participants are what they were, the local Pick Set
holds no pick and the Tiebreakers hold no value: both are empty, or they hold
only the entries `renderWeek` creates for the week it displays, an empty object
for its picks and the empty text for its tiebreaker. -/
theorem handleSaveSchedule_resets_picks (st st' : AppState) (newSchedule : JVal)
    (h : handleSaveSchedule (.ok newSchedule) st = (st', Alert.scheduleSaved)) :
    st'.results = st.results
    ∧ st'.importedPicks = st.importedPicks
    ∧ ((st'.picks = [] ∧ st'.tiebreakers = [])
        ∨ ∃ week, st'.picks = [(week, .obj [])] ∧ st'.tiebreakers = [(week, .str "")])
    ∧ ∀ week i, pickAt (.obj st'.picks) week i = .undefined := by
  have key : st'.results = st.results ∧ st'.importedPicks = st.importedPicks
      ∧ ((st'.picks = [] ∧ st'.tiebreakers = [])
        ∨ ∃ week, st'.picks = [(week, .obj [])] ∧ st'.tiebreakers = [(week, .str "")]) := by
    have hst : st' = (handleSaveSchedule (.ok newSchedule) st).1 := by rw [h]
    subst hst
    simp only [handleSaveSchedule]
    generalize hs1 : savePicks { saveSchedule { st with schedule := newSchedule } with
      picks := [], tiebreakers := [] } = st1
    have hp : st1.picks = [] := by rw [← hs1]; rfl
    have ht : st1.tiebreakers = [] := by rw [← hs1]; rfl
    have hr : st1.results = st.results := by rw [← hs1]; rfl
    have hi : st1.importedPicks = st.importedPicks := by rw [← hs1]; rfl
    have hb : (buildWeekTabs st1).1.results = st.results
        ∧ (buildWeekTabs st1).1.importedPicks = st.importedPicks
        ∧ (((buildWeekTabs st1).1.picks = [] ∧ (buildWeekTabs st1).1.tiebreakers = [])
          ∨ ∃ week, (buildWeekTabs st1).1.picks = [(week, .obj [])]
              ∧ (buildWeekTabs st1).1.tiebreakers = [(week, .str "")]) := by
      unfold buildWeekTabs
      simp only []
      split
      · exact ⟨hr, hi, Or.inl ⟨hp, ht⟩⟩
      · split
        · rename_i w _ _
          generalize hs2 : ({ st1 with weekTabs := makeTabs _ 0 } : AppState) = st2
          have hp2 : st2.picks = [] := by rw [← hs2]; exact hp
          have ht2 : st2.tiebreakers = [] := by rw [← hs2]; exact ht
          have hr2 : st2.results = st.results := by rw [← hs2]; exact hr
          have hi2 : st2.importedPicks = st.importedPicks := by rw [← hs2]; exact hi
          obtain ⟨r1, r2, r3⟩ := renderWeek_data w st2
          refine ⟨r1.trans hr2, r2.trans hi2, ?_⟩
          rcases r3 with ⟨a, b⟩ | ⟨a, b⟩
          · exact Or.inl ⟨a.trans hp2, b.trans ht2⟩
          · obtain ⟨e1, e2⟩ := ensureWeekEntries_of_empty w st2 hp2 ht2
            exact Or.inr ⟨w, a.trans e1, b.trans e2⟩
        · exact ⟨hr, hi, Or.inl ⟨hp, ht⟩⟩
    cases hbw : buildWeekTabs st1 with
    | mk st2 err =>
      rw [hbw] at hb
      cases err <;> exact hb
  refine ⟨key.1, key.2.1, key.2.2, ?_⟩
  intro week i
  rcases key.2.2 with ⟨a, _⟩ | ⟨w, a, _⟩
  · simp [a, pickAt, getProp, objGet, truthy]
  · rw [a]
    simp only [pickAt, getProp, objGet]
    by_cases hw : w = week
    · simp [hw, truthy, getIdx, getProp, objGet]
    · simp [hw, truthy]

/-- Witness for C6 (amended): saving the built-in schedule over Scenario A. -/
theorem handleSaveSchedule_resets_picks_witness :
    (handleSaveSchedule (.ok defaultSchedule) scenarioA).1.results = scenarioA.results
    ∧ (handleSaveSchedule (.ok defaultSchedule) scenarioA).1.importedPicks
        = scenarioA.importedPicks
    ∧ (((handleSaveSchedule (.ok defaultSchedule) scenarioA).1.picks = []
          ∧ (handleSaveSchedule (.ok defaultSchedule) scenarioA).1.tiebreakers = [])
        ∨ ∃ week, (handleSaveSchedule (.ok defaultSchedule) scenarioA).1.picks
              = [(week, .obj [])]
            ∧ (handleSaveSchedule (.ok defaultSchedule) scenarioA).1.tiebreakers
              = [(week, .str "")])
    ∧ ∀ week i, pickAt (.obj (handleSaveSchedule (.ok defaultSchedule) scenarioA).1.picks)
        week i = .undefined :=
  handleSaveSchedule_resets_picks scenarioA _ defaultSchedule rfl

/-- C7, counterexample: the editor text parses to a value that is not a
Schedule, yet `handleSaveSchedule` reports success, replaces the Schedule and
empties the local Pick Set. -/
theorem handleSaveSchedule_accepts_wrong_shape :
    isSchedule notASchedule = false
    ∧ (handleSaveSchedule (.ok notASchedule) scenarioA).2 = Alert.scheduleSaved
    ∧ (handleSaveSchedule (.ok notASchedule) scenarioA).1.schedule = notASchedule
    ∧ (handleSaveSchedule (.ok notASchedule) scenarioA).1.picks = []
    ∧ ¬ ((handleSaveSchedule (.ok notASchedule) scenarioA).1.picks.length
        = scenarioA.picks.length) :=
  ⟨rfl, rfl, rfl, rfl, by decide⟩

/-- C7 (amended): for each administrative save and every editor text that fails
to parse as JSON, the operation aborts with the whole state, in particular the
Schedule, the Result Set, the Pick Set and the Tiebreakers, identical to the one
before it, and reports the parse error. -/
theorem admin_save_parse_failure_atomic (st : AppState) (msg : String) :
    handleSaveSchedule (.error msg) st = (st, Alert.scheduleFailed msg)
    ∧ handleSaveResults (.error msg) st = (st, Alert.resultsFailed msg) :=
  ⟨rfl, rfl⟩

/-! ### Locking of the pick controls -/

/-- C10, counterexample: week "1" has three matchups and the results [0, 1];
position 0 is decided, yet both pick controls of the third matchup are
rendered enabled. -/
theorem renderWeek_leaves_undecided_matchup_enabled :
    (weekGames partialResults.schedule "1").length = 3
    ∧ definedOutcome (entryAt partialResults.results "1" 0) = some 0
    ∧ pickControlsDisabled (renderWeek "1" partialResults).1.content
        = [[true, true], [true, true], [false, false]]
    ∧ ¬ (∀ flags ∈ pickControlsDisabled (renderWeek "1" partialResults).1.content,
          ∀ b ∈ flags, b = true) :=
  ⟨rfl, rfl, rfl, by decide⟩

theorem hasEntry_eq (results : JVal) (hres : isSequenceMap results = true) (week : String)
    (i : Nat) : hasEntry results week i = .ok (!isUndefined (entryAt results week i)) := by
  cases results with
  | obj kvs =>
    simp only [hasEntry, entryAt, weekOutcomes, getProp_obj, bind, Except.bind, pure,
      Except.pure]
    rcases objGet_of_all isArr kvs hres week with hu | harr
    · simp [hu, truthy, isUndefined]
    · cases hv : objGet kvs week with
      | arr xs => simp [truthy, getIdx_arr]
      | _ => rw [hv] at harr; simp [isArr] at harr
  | _ => simp [isSequenceMap] at hres

theorem renderInput_ok (st : AppState) (week : String) (index : Nat) (game : JVal)
    (side : String) (inp : RadioInput) (h : renderInput st week index game side = .ok inp) :
    inp.value = side ∧ hasEntry st.results week index = .ok inp.disabled := by
  simp only [renderInput, bind, Except.bind, pure, Except.pure] at h
  cases h1 : getIdx (objGet st.picks week) index with
  | error e => rw [h1] at h; simp at h
  | ok picked =>
    cases h2 : hasEntry st.results week index with
    | error e => rw [h1, h2] at h; simp at h
    | ok disabled =>
      cases h3 : getProp game side with
      | error e => rw [h1, h2, h3] at h; simp at h
      | ok label =>
        rw [h1, h2, h3] at h
        simp only [Except.ok.injEq] at h
        subst h
        exact ⟨rfl, rfl⟩

theorem renderRow_ok (st : AppState) (week : String) (game : JVal) (index : Nat)
    (row : GameRow) (h : renderRow st week game index = .ok row) :
    row.inputs.map (fun inp => inp.value) = ["away", "home"]
    ∧ ∀ inp ∈ row.inputs, hasEntry st.results week index = .ok inp.disabled := by
  simp only [renderRow, bind, Except.bind, pure, Except.pure] at h
  cases h1 : getProp game "away" with
  | error e => rw [h1] at h; simp at h
  | ok away =>
    cases h2 : getProp game "home" with
    | error e => rw [h1, h2] at h; simp at h
    | ok home =>
      cases h3 : renderInput st week index game "away" with
      | error e => rw [h1, h2, h3] at h; simp at h
      | ok awayInput =>
        cases h4 : renderInput st week index game "home" with
        | error e => rw [h1, h2, h3, h4] at h; simp at h
        | ok homeInput =>
          obtain ⟨a1, a2⟩ := renderInput_ok _ _ _ _ _ _ h3
          obtain ⟨b1, b2⟩ := renderInput_ok _ _ _ _ _ _ h4
          have hin : row.inputs = [awayInput, homeInput] := by
            rw [h1, h2, h3, h4] at h
            simp only at h
            cases h5 : hasEntry st.results week index with
            | error e => rw [h5] at h; simp at h
            | ok resolved =>
              rw [h5] at h
              cases resolved with
              | false =>
                simp only [Bool.false_eq_true, if_false, Except.ok.injEq] at h
                rw [← h]
              | true =>
                simp only [if_true] at h
                cases h6 : getProp st.results week with
                | error e => rw [h6] at h; simp at h
                | ok rw' =>
                  rw [h6] at h
                  simp only [] at h
                  cases h7 : getIdx rw' index with
                  | error e => rw [h7] at h; simp at h
                  | ok entry =>
                    rw [h7] at h
                    simp only [Except.ok.injEq] at h
                    rw [← h]
          rw [hin]
          refine ⟨by simp [a1, b1], ?_⟩
          intro inp hmem
          simp only [List.mem_cons, List.mem_singleton, List.not_mem_nil, or_false] at hmem
          rcases hmem with hmem | hmem <;> rw [hmem] <;> assumption

theorem renderRows_ok (st : AppState) (week : String) :
    ∀ (games : List JVal) (i0 : Nat) (acc rows : List GameRow),
      renderRows st week games i0 acc = (rows, none) →
      ∃ rows', rows = acc ++ rows' ∧ rows'.length = games.length
        ∧ ∀ (j : Nat) (row : GameRow), rows'.get? j = some row →
            ∃ game, renderRow st week game (i0 + j) = .ok row := by
  intro games
  induction games with
  | nil =>
    intro i0 acc rows h
    simp only [renderRows, Prod.mk.injEq, and_true] at h
    exact ⟨[], by simp [h], rfl, fun j row hj => by simp at hj⟩
  | cons game rest ih =>
    intro i0 acc rows h
    simp only [renderRows] at h
    cases hr : renderRow st week game i0 with
    | error e => rw [hr] at h; simp at h
    | ok row0 =>
      rw [hr] at h
      obtain ⟨rows', h1, h2, h3⟩ := ih (i0 + 1) (acc ++ [row0]) rows h
      refine ⟨row0 :: rows', by simp [h1], by simp [h2], ?_⟩
      intro j row hj
      cases j with
      | zero =>
        simp only [List.get?_cons_zero, Option.some.injEq] at hj
        subst hj
        exact ⟨game, hr⟩
      | succ j =>
        simp only [List.get?_cons_succ] at hj
        obtain ⟨g, hg⟩ := h3 j row hj
        exact ⟨g, by rw [show i0 + (j + 1) = i0 + 1 + j by omega]; exact hg⟩

/-- C10 (amended): when `renderWeek` renders a week of a state whose results
form a Result Set, there is one row per matchup, each with the two controls
"away" and "home"; the controls of the matchup at position `i` are disabled
exactly when the Result Set holds an entry (0, 1 or null) at that position of
the week, whatever is decided elsewhere in the week; and if the Result Set has
at least one decided position for the week, the tiebreaker input is disabled. -/
theorem renderWeek_locks_per_position (st st' : AppState) (week : String)
    (rows : List GameRow) (tb : TiebreakerInput)
    (hres : isResultSet st.results = true)
    (h : renderWeek week st = (st', none))
    (hc : st'.content = .week rows (some tb)) :
    rows.length = (weekGames st.schedule week).length
    ∧ (∀ (i : Nat) (row : GameRow), rows.get? i = some row →
        row.inputs.map (fun inp => inp.value) = ["away", "home"]
        ∧ ∀ inp ∈ row.inputs, inp.disabled = !isUndefined (entryAt st.results week i))
    ∧ (∀ (i : Nat) (r : Int), definedOutcome (entryAt st.results week i) = some r →
        tb.disabled = true) := by
  have hseq := isSequenceMap_of_isResultSet _ hres
  obtain ⟨_, hr1, _⟩ := ensureWeekEntries_data week st
  unfold renderWeek at h
  split at h
  · simp at h
  · rename_i g hg
    split at h
    · rename_i game rest hgames
      simp only [] at h
      split at h
      · simp at h
      · rename_i rows0 hrows
        split at h
        · simp at h
        · rename_i tb0 htb
          obtain ⟨hidden, table, hframe⟩ := updateLeaderboard_frame
            { ensureWeekEntries week st with content := .week rows0 (some tb0) }
          rw [h] at hframe
          simp only at hframe
          rw [hframe] at hc
          simp only [Content.week.injEq, Option.some.injEq] at hc
          obtain ⟨hc1, hc2⟩ := hc
          subst hc1 hc2
          obtain ⟨rows', e1, e2, e3⟩ := renderRows_ok _ _ _ _ _ _ hrows
          simp only [List.nil_append] at e1
          subst e1
          have hgames' : weekGames st.schedule week = game :: rest := by
            simp only [weekGames, hg]
            by_cases ht : truthy g = true
            · simp only [ht, if_true] at hgames
              rw [hgames]
            · simp only [ht] at hgames
              simp at hgames
          refine ⟨by rw [e2, hgames'], ?_, ?_⟩
          · intro i row hi
            obtain ⟨gm, hgm⟩ := e3 i row hi
            obtain ⟨r1, r2⟩ := renderRow_ok _ _ _ _ _ hgm
            refine ⟨r1, ?_⟩
            intro inp hinp
            have := r2 inp hinp
            rw [hr1, Nat.zero_add, hasEntry_eq _ hseq] at this
            simp only [Except.ok.injEq] at this
            exact this.symm
          · simp only [renderTiebreaker, bind, Except.bind, pure, Except.pure, hr1] at htb
            cases hrw : getProp st.results week with
            | error e => rw [hrw] at htb; simp at htb
            | ok rw' =>
              rw [hrw] at htb
              simp only [Except.ok.injEq] at htb
              intro i r hdef
              rw [← htb]
              cases rw' with
              | undefined => simp [entryAt, weekOutcomes, hrw, definedOutcome] at hdef
              | _ => rfl
    · simp only [Prod.mk.injEq, and_true] at h
      rw [← h] at hc
      simp at hc

/-- Witness for C10 (amended): the three-matchup week with results [0, 1]. -/
theorem renderWeek_locks_per_position_witness :
    pickControlsDisabled (renderWeek "1" partialResults).1.content
        = [[true, true], [true, true], [false, false]]
    ∧ definedOutcome (entryAt partialResults.results "1" 0) = some 0
    ∧ ∃ (rows : List GameRow) (tb : TiebreakerInput),
      (renderWeek "1" partialResults).1.content = .week rows (some tb)
      ∧ rows.length = (weekGames partialResults.schedule "1").length
      ∧ (∀ (i : Nat) (row : GameRow), rows.get? i = some row →
          row.inputs.map (fun inp => inp.value) = ["away", "home"]
          ∧ ∀ inp ∈ row.inputs,
              inp.disabled = !isUndefined (entryAt partialResults.results "1" i))
      ∧ (∀ (i : Nat) (r : Int),
          definedOutcome (entryAt partialResults.results "1" i) = some r →
          tb.disabled = true) :=
  ⟨rfl, rfl, _, _, rfl,
    renderWeek_locks_per_position partialResults (renderWeek "1" partialResults).1 "1" _ _
      rfl rfl rfl⟩

/-! ### Export and import -/

theorem cloneMembers_sides (m : JObj) (h : m.all (fun q => isSide q.2) = true) :
    cloneMembers m = m := by
  induction m with
  | nil => simp [cloneMembers]
  | cons q rest ih =>
    obtain ⟨k, v⟩ := q
    simp only [List.all_cons, Bool.and_eq_true] at h
    rcases isSide_cases v h.1 with hv | hv <;> subst hv <;>
      simp [cloneMembers, jsonClone, ih h.2]

theorem cloneMembers_pickSet (kvs : JObj) (h : isPickSet (.obj kvs) = true) :
    cloneMembers kvs = kvs := by
  simp only [isPickSet] at h
  induction kvs with
  | nil => simp [cloneMembers]
  | cons p rest ih =>
    obtain ⟨k, v⟩ := p
    simp only [List.all_cons, Bool.and_eq_true] at h
    cases v with
    | obj m =>
      have hm : m.all (fun q => isSide q.2) = true := h.1
      simp [cloneMembers, jsonClone, cloneMembers_sides m hm, ih h.2]
    | _ => simp [isWeekPicks] at h

/-- C9: for a local Pick Set, any Tiebreakers and a Result Set, the document
`handleExport` builds, given any non-empty replacement name, is accepted by
`handleImportFile` and appended as an imported participant whose Pick Set is
the exported one and whose `correct`, computed by the imported loop, is the
number the local loop computes for the same picks and results. -/
theorem export_import_round_trip (st : AppState) (newName : String)
    (hname : newName ≠ "")
    (hpicks : isPickSet (.obj st.picks) = true)
    (hres : isResultSet st.results = true) :
    fieldOf (renameDoc (handleExport st) newName) "name" = .str newName
    ∧ fieldOf (renameDoc (handleExport st) newName) "picks" = .obj st.picks
    ∧ (handleImportFile (.ok (renameDoc (handleExport st) newName)) st).1.importedPicks
        = st.importedPicks ++ [renameDoc (handleExport st) newName]
    ∧ ∃ n : Nat, localScore (.obj st.picks) st.results = .ok n
        ∧ importedScore (renameDoc (handleExport st) newName) st.results = .ok n := by
  have hdoc : renameDoc (handleExport st) newName
      = .obj [("name", .str newName), ("picks", .obj st.picks),
          ("tiebreakers", .obj (cloneMembers st.tiebreakers))] := by
    simp [renameDoc, handleExport, jsonClone, cloneMembers, cloneMembers_pickSet _ hpicks,
      objSet]
  have hn : fieldOf (renameDoc (handleExport st) newName) "name" = .str newName := by
    rw [hdoc]; simp [fieldOf, getProp, objGet]
  have hp : fieldOf (renameDoc (handleExport st) newName) "picks" = .obj st.picks := by
    rw [hdoc]; simp [fieldOf, getProp, objGet]
  refine ⟨hn, hp, ?_, ?_⟩
  · exact handleImportFile_appends st _ newName st.picks hname hn hp
  · have hg : getProp (renameDoc (handleExport st) newName) "picks" = .ok (.obj st.picks) := by
      rw [hdoc]; simp [getProp, objGet]
    refine ⟨scoreOf (.obj st.picks) st.results, ?_, ?_⟩
    · exact localScore_eq _ _ (isSequenceMap_of_isResultSet _ hres)
        (fun w => ⟨_, getProp_obj st.picks w⟩)
    · rw [importedScore_eq_localScore _ _ _ hg]
      exact localScore_eq _ _ (isSequenceMap_of_isResultSet _ hres)
        (fun w => ⟨_, getProp_obj st.picks w⟩)

/-- Witness for C9: the picks of Scenario A exported and imported as "Sam"
score 2 in both loops. -/
theorem export_import_round_trip_witness :
    importedScore (renameDoc (handleExport scenarioA) "Sam") scenarioA.results = .ok 2
    ∧ localScore (.obj scenarioA.picks) scenarioA.results = .ok 2
    ∧ (handleImportFile (.ok (renameDoc (handleExport scenarioA) "Sam")) scenarioA).1.importedPicks
        = scenarioA.importedPicks ++ [renameDoc (handleExport scenarioA) "Sam"] :=
  ⟨rfl, rfl,
    (export_import_round_trip scenarioA "Sam" (by decide) rfl rfl).2.2.1⟩

/-! ### Monotonicity of scoring -/

theorem objGet_objSet_same (kvs : JObj) (k : String) (v : JVal) :
    objGet (objSet kvs k v) k = v := by
  induction kvs with
  | nil => simp [objSet, objGet]
  | cons p rest ih =>
    obtain ⟨k', v'⟩ := p
    by_cases h : k' = k
    · simp [objSet, objGet, h]
    · simp [objSet, objGet, h, ih]

theorem objGet_objSet_other (kvs : JObj) (k k2 : String) (v : JVal) (hne : k2 ≠ k) :
    objGet (objSet kvs k v) k2 = objGet kvs k2 := by
  induction kvs with
  | nil => simp [objSet, objGet, Ne.symm hne]
  | cons p rest ih =>
    obtain ⟨k', v'⟩ := p
    by_cases h : k' = k
    · subst h
      simp [objSet, objGet, Ne.symm hne]
    · by_cases h2 : k' = k2
      · subst h2
        simp [objSet, objGet, h]
      · simp [objSet, objGet, h, h2, ih]

theorem addPick_of_absent (picks : JObj) (week : String) (i : Nat) (side : String)
    (h : objGet picks week = .undefined) :
    addPick picks week i side
      = objSet (objSet picks week (.obj [])) week (.obj [(toString i, .str side)]) := by
  simp [addPick, h, truthy, objGet_objSet_same, setIdx, objSet]

theorem addPick_of_obj (picks : JObj) (week : String) (i : Nat) (side : String) (m : JObj)
    (h : objGet picks week = .obj m) :
    addPick picks week i side
      = objSet picks week (.obj (objSet m (toString i) (.str side))) := by
  simp [addPick, h, truthy, setIdx]

theorem pickAt_addPick_same (picks : JObj) (hstore : isPickStore (.obj picks) = true)
    (week : String) (i : Nat) (side : String) :
    pickAt (.obj (addPick picks week i side)) week i = .str side := by
  rcases objGet_of_all isObj picks hstore week with hu | hobj
  · rw [addPick_of_absent _ _ _ _ hu]
    simp [pickAt, getProp, objGet_objSet_same, truthy, getIdx, objGet]
  · cases hv : objGet picks week with
    | obj m =>
      rw [addPick_of_obj _ _ _ _ m hv]
      simp [pickAt, getProp, objGet_objSet_same, truthy, getIdx]
    | _ => rw [hv] at hobj; simp [isObj] at hobj

theorem pickAt_addPick_other (picks : JObj) (hstore : isPickStore (.obj picks) = true)
    (week : String) (i : Nat) (side : String) (w2 : String) (i2 : Nat)
    (hne : ¬ (w2 = week ∧ i2 = i)) :
    pickAt (.obj (addPick picks week i side)) w2 i2 = pickAt (.obj picks) w2 i2 := by
  by_cases hw : w2 = week
  · subst hw
    have hi : i2 ≠ i := fun h => hne ⟨rfl, h⟩
    have hk : toString i2 ≠ toString i := fun h => hi (toString_nat_injective h)
    rcases objGet_of_all isObj picks hstore w2 with hu | hobj
    · rw [addPick_of_absent _ _ _ _ hu]
      simp [pickAt, getProp, objGet_objSet_same, truthy, getIdx, objGet, hu, Ne.symm hk]
    · cases hv : objGet picks w2 with
      | obj m =>
        rw [addPick_of_obj _ _ _ _ m hv]
        simp [pickAt, getProp, objGet_objSet_same, truthy, getIdx, hv,
          objGet_objSet_other _ _ _ _ hk]
      | _ => rw [hv] at hobj; simp [isObj] at hobj
  · rcases objGet_of_all isObj picks hstore week with hu | hobj
    · rw [addPick_of_absent _ _ _ _ hu]
      simp [pickAt, getProp, objGet_objSet_other _ _ _ _ hw]
    · cases hv : objGet picks week with
      | obj m =>
        rw [addPick_of_obj _ _ _ _ m hv]
        simp [pickAt, getProp, objGet_objSet_other _ _ _ _ hw]
      | _ => rw [hv] at hobj; simp [isObj] at hobj

theorem mem_dedupKeys (ks : List String) (k : String) : k ∈ dedupKeys ks ↔ k ∈ ks := by
  induction ks with
  | nil => simp [dedupKeys]
  | cons a rest ih =>
    simp only [dedupKeys, List.mem_cons, List.mem_filter, ih, decide_eq_true_eq]
    constructor
    · rintro (h | ⟨h, _⟩)
      · exact Or.inl h
      · exact Or.inr h
    · intro h
      by_cases hk : k = a
      · exact Or.inl hk
      · rcases h with h | h
        · exact absurd h hk
        · exact Or.inr ⟨h, hk⟩

theorem nodup_dedupKeys (ks : List String) : (dedupKeys ks).Nodup := by
  induction ks with
  | nil => simp [dedupKeys]
  | cons a rest ih =>
    simp only [dedupKeys, List.nodup_cons, List.mem_filter, decide_eq_true_eq]
    exact ⟨fun h => h.2 rfl, ih.filter _⟩

theorem ownKeys_perm (kvs : JObj) : (ownKeys kvs).Perm (dedupKeys (kvs.map Prod.fst)) := by
  unfold ownKeys
  refine List.Perm.trans (List.Perm.append_right _ (List.perm_insertionSort _ _)) ?_
  exact List.filter_append_perm _ _

theorem nodup_ownKeys (kvs : JObj) : (ownKeys kvs).Nodup :=
  (ownKeys_perm kvs).nodup_iff.mpr (nodup_dedupKeys _)

theorem mem_ownKeys_of_objGet (kvs : JObj) (k : String) (h : objGet kvs k ≠ .undefined) :
    k ∈ ownKeys kvs := by
  rw [(ownKeys_perm kvs).mem_iff, mem_dedupKeys]
  induction kvs with
  | nil => simp [objGet] at h
  | cons p rest ih =>
    obtain ⟨k', v⟩ := p
    by_cases hk : k' = k
    · simp [hk]
    · simp only [objGet, hk, if_false] at h
      simp only [List.map_cons, List.mem_cons]
      exact Or.inr (ih h)

theorem nodup_positions (results : JVal) : (positions results).Nodup := by
  unfold positions
  cases hk : objectKeys results with
  | error e => simp
  | ok keys =>
    have hnd : keys.Nodup := by
      cases results <;> simp only [objectKeys, Except.ok.injEq] at hk <;>
        first
          | (rw [← hk]; exact nodup_ownKeys _)
          | (rw [← hk]; exact (List.nodup_range _).map (fun a b h => toString_nat_injective h))
          | (rw [← hk]; exact List.nodup_nil)
          | exact absurd hk (by simp)
    simp only []
    rw [List.nodup_flatMap]
    refine ⟨fun w _ => (List.nodup_range _).map (fun a b h => by simpa using h), ?_⟩
    refine List.Pairwise.imp_of_mem ?_ (List.Nodup.pairwise_of_forall_ne hnd (fun a _ b _ h => h))
    intro a b _ _ hab
    simp only [Function.onFun, List.disjoint_left, List.mem_map, List.mem_range]
    rintro ⟨w, i⟩ ⟨i1, _, h1⟩ ⟨i2, _, h2⟩
    simp only [Prod.mk.injEq] at h1 h2
    exact hab (h1.1.trans h2.1.symm)

theorem mem_positions (results : JVal) (hres : isSequenceMap results = true) (week : String)
    (i : Nat) (h : i < (weekOutcomes results week).length) : (week, i) ∈ positions results := by
  cases results with
  | obj kvs =>
    simp only [positions, objectKeys_obj, List.mem_flatMap, List.mem_map, List.mem_range,
      Prod.mk.injEq]
    refine ⟨week, ?_, i, h, rfl, rfl⟩
    apply mem_ownKeys_of_objGet
    intro hu
    simp [weekOutcomes, getProp_obj, hu] at h
  | _ => simp [isSequenceMap] at hres

theorem countP_succ_of_flip {α : Type} (p q : α → Bool) (a : α) :
    ∀ (l : List α), l.Nodup → a ∈ l → p a = false → q a = true →
      (∀ x ∈ l, x ≠ a → q x = p x) → l.countP q = l.countP p + 1 := by
  intro l
  induction l with
  | nil => intro _ h; simp at h
  | cons x rest ih =>
    intro hnd hmem hp hq hother
    rw [List.nodup_cons] at hnd
    by_cases hx : x = a
    · subst hx
      have hrest : rest.countP q = rest.countP p := by
        apply List.countP_congr
        intro y hy
        have hne : y ≠ x := fun h => hnd.1 (h ▸ hy)
        rw [hother y (List.mem_cons_of_mem _ hy) hne]
      simp [List.countP_cons, hp, hq, hrest]
    · have hmem' : a ∈ rest := by
        rcases List.mem_cons.mp hmem with h | h
        · exact absurd h.symm hx
        · exact h
      have := ih hnd.2 hmem' hp hq (fun y hy hne => hother y (List.mem_cons_of_mem _ hy) hne)
      simp only [List.countP_cons, this, hother x (List.mem_cons_self _ _) hx]
      omega

theorem definedOutcome_cases (v : JVal) (r : Int) (h : definedOutcome v = some r) :
    v = .num r ∧ (r = 0 ∨ r = 1) := by
  cases v with
  | num n =>
    simp only [definedOutcome] at h
    by_cases hn : n = 0 ∨ n = 1
    · simp only [hn, if_true, Option.some.injEq] at h
      subst h
      exact ⟨rfl, hn⟩
    · simp [hn] at h
  | _ => simp [definedOutcome] at h

theorem scoreOf_addPick (picks : JObj) (results : JVal) (week : String) (i : Nat) (r : Int)
    (hres : isSequenceMap results = true)
    (hstore : isPickStore (.obj picks) = true)
    (hout : definedOutcome (entryAt results week i) = some r)
    (hnone : pickAt (.obj picks) week i = .undefined) :
    scoreOf (.obj (addPick picks week i (matchingSide r))) results
      = scoreOf (.obj picks) results + 1 := by
  obtain ⟨hentry, hr⟩ := definedOutcome_cases _ _ hout
  have hlt : i < (weekOutcomes results week).length := by
    by_contra hge
    simp only [entryAt, List.getD_eq_getElem?_getD,
      List.getElem?_eq_none (Nat.le_of_not_lt hge)] at hentry
    simp at hentry
  unfold scoreOf
  apply countP_succ_of_flip _ _ (week, i) _ (nodup_positions results)
    (mem_positions results hres week i hlt)
  · simp [contributes, hnone, isUndefined]
  · simp only [contributes, pickAt_addPick_same picks hstore, hentry, isUndefined]
    rcases hr with hr | hr <;> subst hr <;>
      simp [matchingSide, chosenMatches, strictEqStr, strictEqNum]
  · intro x _ hne
    have hx : ¬ (x.1 = week ∧ x.2 = i) := fun h => hne (Prod.ext h.1 h.2)
    simp only [contributes, pickAt_addPick_other picks hstore week i _ x.1 x.2 hx]

theorem onPickChange_after_ensure (st : AppState) (week : String) (i : Nat) (side : String) :
    (onPickChange week i side (ensureWeekEntries week st)).1.picks
        = addPick st.picks week i side
    ∧ (onPickChange week i side (ensureWeekEntries week st)).1.results = st.results
    ∧ (onPickChange week i side (ensureWeekEntries week st)).1.importedPicks
        = st.importedPicks
    ∧ (onPickChange week i side (ensureWeekEntries week st)).1.userName = st.userName := by
  have hp : (ensureWeekEntries week st).picks
      = if !truthy (objGet st.picks week) then objSet st.picks week (.obj []) else st.picks := by
    unfold ensureWeekEntries
    by_cases h1 : truthy (objGet st.picks week) = true <;>
      by_cases h2 : isUndefined (objGet st.tiebreakers week) = true <;> simp [h1, h2]
  have hu : (ensureWeekEntries week st).userName = st.userName := by
    unfold ensureWeekEntries
    by_cases h1 : truthy (objGet st.picks week) = true <;>
      by_cases h2 : isUndefined (objGet st.tiebreakers week) = true <;> simp [h1, h2]
  obtain ⟨_, hr, hi⟩ := ensureWeekEntries_data week st
  unfold onPickChange addPick
  rw [hp]
  simp only []
  cases setIdx (objGet (if !truthy (objGet st.picks week) then objSet st.picks week (.obj [])
      else st.picks) week) i (.str side) with
  | error e => exact ⟨hp, hr, hi, hu⟩
  | ok weekPicks => exact ⟨rfl, hr, hi, hu⟩

theorem computeScores_eq_of_fields (st st2 : AppState) (hp : st2.picks = st.picks)
    (hr : st2.results = st.results) (hi : st2.importedPicks = st.importedPicks)
    (hu : st2.userName = st.userName) : computeScores st2 = computeScores st := by
  simp only [computeScores, hp, hr, hi, hu]

/-- C8: for a Result Set and a roster of imported documents, when the outcome at
(week, i) is defined and a participant whose picks form a mapping of weeks to
mappings has no pick there, adding the pick whose side matches the outcome (for
the local user through `renderWeek` and the radio `change` listener, for an
imported participant in its document) raises the `correct` of that participant by
exactly 1 and leaves every other entry of the `scores` array as it was. -/
theorem scoring_monotonic (st : AppState) (week : String) (i : Nat) (r : Int)
    (hres : isResultSet st.results = true)
    (hroster : ∀ p ∈ st.importedPicks, isParticipant p = true)
    (hout : definedOutcome (entryAt st.results week i) = some r) :
    (isPickStore (.obj st.picks) = true → pickAt (.obj st.picks) week i = .undefined →
      ∃ (c : Nat) (others : List ScoreRow),
        computeScores st = .ok (⟨.str st.userName, c⟩ :: others)
        ∧ computeScores (onPickChange week i (matchingSide r) (ensureWeekEntries week st)).1
            = .ok (⟨.str st.userName, c + 1⟩ :: others))
    ∧ (∀ (pre post : List JVal) (members docPicks : JObj),
        st.importedPicks = pre ++ .obj members :: post →
        objGet members "picks" = .obj docPicks →
        isPickStore (.obj docPicks) = true →
        pickAt (.obj docPicks) week i = .undefined →
        ∃ (before after : List ScoreRow) (row : ScoreRow),
          before.length = pre.length + 1
          ∧ computeScores st = .ok (before ++ row :: after)
          ∧ computeScores (withImported st
              (pre ++ docWithPick (.obj members) week i (matchingSide r) :: post))
            = .ok (before ++ ⟨row.name, row.correct + 1⟩ :: after)) := by
  have hseq := isSequenceMap_of_isResultSet _ hres
  have htruthy : ∀ p ∈ st.importedPicks, truthy (fieldOf p "picks") = true := by
    intro p hp
    have := hroster p hp
    simp only [isParticipant, Bool.and_eq_true] at this
    exact this.2
  have hbase := computeScores_eq st hseq htruthy
  constructor
  · intro hstore hnone
    obtain ⟨e1, e2, e3, e4⟩ := onPickChange_after_ensure st week i (matchingSide r)
    refine ⟨_, _, hbase, ?_⟩
    rw [computeScores_eq_of_fields { st with picks := addPick st.picks week i (matchingSide r) }
      _ e1 e2 e3 e4]
    have hnew := computeScores_eq
      { st with picks := addPick st.picks week i (matchingSide r) } hseq htruthy
    rw [hnew]
    simp only [scoreOf_addPick st.picks st.results week i r hseq hstore hout hnone]
  · intro pre post members docPicks hsplit hdp hstore hnone
    have hnew : docWithPick (.obj members) week i (matchingSide r)
        = .obj (objSet members "picks" (.obj (addPick docPicks week i (matchingSide r)))) := by
      simp [docWithPick, hdp]
    have hfp : fieldOf (docWithPick (.obj members) week i (matchingSide r)) "picks"
        = .obj (addPick docPicks week i (matchingSide r)) := by
      rw [hnew]; simp [fieldOf, getProp, objGet_objSet_same]
    have hfn : fieldOf (docWithPick (.obj members) week i (matchingSide r)) "name"
        = fieldOf (.obj members) "name" := by
      rw [hnew]
      simp only [fieldOf, getProp]
      exact objGet_objSet_other _ _ _ _ (by decide)
    have hfold : fieldOf (.obj members) "picks" = .obj docPicks := by
      simp [fieldOf, getProp, hdp]
    have htruthy2 : ∀ p ∈ pre ++ docWithPick (.obj members) week i (matchingSide r) :: post,
        truthy (fieldOf p "picks") = true := by
      intro p hp
      simp only [List.mem_append, List.mem_cons] at hp
      rcases hp with hp | hp | hp
      · exact htruthy p (by rw [hsplit]; simp [hp])
      · rw [hp, hfp]; rfl
      · exact htruthy p (by rw [hsplit]; simp [hp])
    have hnewScores := computeScores_eq (withImported st
      (pre ++ docWithPick (.obj members) week i (matchingSide r) :: post)) hseq htruthy2
    refine ⟨⟨.str st.userName, scoreOf (.obj st.picks) st.results⟩ ::
        pre.map (fun p => (⟨fieldOf p "name", scoreOf (fieldOf p "picks") st.results⟩ : ScoreRow)),
      post.map (fun p => (⟨fieldOf p "name", scoreOf (fieldOf p "picks") st.results⟩ : ScoreRow)),
      ⟨fieldOf (.obj members) "name", scoreOf (.obj docPicks) st.results⟩, by simp, ?_, ?_⟩
    · rw [hbase, hsplit]
      simp [hfold]
    · rw [hnewScores]
      simp only [withImported, List.map_append, List.map_cons, hfp, hfn,
        scoreOf_addPick docPicks st.results week i r hseq hstore hout hnone]
      simp

/-- Witness for C8: in Scenario A game 2 of week "1" was won by the away team
and neither participant picked it; adding the away pick for the local user moves
the scores from (2, 1) to (3, 1), adding it for Sam moves them to (2, 2). -/
theorem scoring_monotonic_witness :
    computeScores scenarioWithSam = .ok [⟨.str "Player 1", 2⟩, ⟨.str "Sam", 1⟩]
    ∧ (∃ (c : Nat) (others : List ScoreRow),
        computeScores scenarioWithSam = .ok (⟨.str scenarioWithSam.userName, c⟩ :: others)
        ∧ computeScores (onPickChange "1" 2 (matchingSide 1)
            (ensureWeekEntries "1" scenarioWithSam)).1
            = .ok (⟨.str scenarioWithSam.userName, c + 1⟩ :: others))
    ∧ (∃ (before after : List ScoreRow) (row : ScoreRow),
        before.length = 0 + 1
        ∧ computeScores scenarioWithSam = .ok (before ++ row :: after)
        ∧ computeScores (withImported scenarioWithSam
            ([] ++ docWithPick (.obj [("name", .str "Sam"),
              ("picks", .obj [("1", .obj [("0", .str "home")])])]) "1" 2 (matchingSide 1) :: []))
          = .ok (before ++ ⟨row.name, row.correct + 1⟩ :: after)) :=
  ⟨rfl,
    (scoring_monotonic scenarioWithSam "1" 2 1 rfl
      (fun p hp => by
        simp only [scenarioWithSam, List.mem_singleton] at hp
        subst hp
        rfl) rfl).1 rfl rfl,
    (scoring_monotonic scenarioWithSam "1" 2 1 rfl
      (fun p hp => by
        simp only [scenarioWithSam, List.mem_singleton] at hp
        subst hp
        rfl) rfl).2 [] [] _ _ rfl rfl rfl rfl⟩

end PickEm
